import Mathlib

attribute [local semireducible] Rat.add Rat.sub Rat.mul Rat.inv Rat.ofScientific

/-!
Verification of the tabular data-analysis pipeline: a shallow embedding of
the Cleaner, Statistics Summarizer and Anomaly Detector stages
(src/backend/agents/nodes.py) together with the upload/analyze entry points
(src/backend/main.py), and proofs of the specification's claims about them.

Cells are modelled as rational numbers, strings or nulls (pandas NaN);
machine floats are modelled by exact rationals, and the floating-point
correlation value (which involves a square root) by a real number.
-/

/-- A single cell of a table: a numeric value, a piece of text, or a null
(pandas `NaN` / missing value). -/
inductive Cell where
  | num (q : ℚ)
  | str (s : String)
  | null
deriving DecidableEq

/-- The resident dtype of a column: `numeric` models pandas `int64/float64`,
`object` models the generic text dtype. -/
inductive DType where
  | numeric
  | object
deriving DecidableEq

/-- A table: named, typed columns and rows of cells.  Each row carries its
pandas index label, which survives `dropna` / `drop_duplicates` untouched
(the detector reports these labels). -/
structure Table where
  cols : List (String × DType)
  rows : List (Nat × List Cell)
deriving DecidableEq

def Table.ncols (t : Table) : Nat := t.cols.length

def Table.nrows (t : Table) : Nat := t.rows.length

def Table.colNames (t : Table) : List String := t.cols.map Prod.fst

def Table.dtypeAt (t : Table) (j : Nat) : DType :=
  (t.cols.getD j ("", DType.object)).2

def Table.colNameAt (t : Table) (j : Nat) : String :=
  (t.cols.getD j ("", DType.object)).1

/-- The cells of column `j`, in row order (out-of-range reads give `null`;
well-formed tables are rectangular, see `Table.Rect`). -/
def Table.colCells (t : Table) (j : Nat) : List Cell :=
  t.rows.map (fun p => p.2.getD j Cell.null)

/-- Position of a named column, modelling `df.columns.get_loc` /
the `"age" in df` membership test. -/
def Table.colIdx (t : Table) (name : String) : Option Nat :=
  t.colNames.findIdx? (fun n => n = name)

/-- Rectangularity: every row has exactly one cell per column.  This is the
pandas DataFrame shape invariant ("all columns have identical row count"). -/
def Table.Rect (t : Table) : Prop :=
  ∀ p ∈ t.rows, (p : Nat × List Cell).2.length = t.ncols

instance (t : Table) : Decidable t.Rect := by
  unfold Table.Rect; infer_instance

def isStrCell : Cell → Bool
  | Cell.str _ => true
  | _ => false

/-- Library invariant of pandas numeric columns: a numeric-dtyped column
holds only numbers and nulls, never text. -/
def Table.NumOk (t : Table) : Prop :=
  ∀ j, t.dtypeAt j = DType.numeric →
    ∀ c ∈ t.colCells j, isStrCell c = false

instance (t : Table) : Decidable t.NumOk := by
  have h : t.NumOk ↔ ∀ j ∈ List.range t.ncols, t.dtypeAt j = DType.numeric →
      ∀ c ∈ t.colCells j, isStrCell c = false := by
    constructor
    · intro h j _
      exact h j
    · intro h j hj
      by_cases hjr : j < t.ncols
      · exact h j (List.mem_range.mpr hjr) hj
      · exfalso
        have hd : t.cols.getD j ("", DType.object) = ("", DType.object) :=
          List.getD_eq_default _ _ (le_of_not_lt hjr)
        rw [Table.dtypeAt, hd] at hj
        cases hj
  exact decidable_of_iff _ h.symm

/-! ### Text helpers: Python `str.strip`, `str.lower`, numeric parsing -/

/-- Python `str.strip()`: remove leading and trailing whitespace. -/
def pyStrip (s : String) : String :=
  ⟨((s.data.dropWhile Char.isWhitespace).reverse.dropWhile Char.isWhitespace).reverse⟩

/-- Whitespace-trim a cell, modelling
`df.applymap(lambda x: x.strip() if isinstance(x, str) else x)`. -/
def trimCell : Cell → Cell
  | Cell.str s => Cell.str (pyStrip s)
  | c => c

/-- Value of a nonempty digit string. -/
def natOfDigits (l : List Char) : Nat :=
  l.foldl (fun n c => n * 10 + (c.toNat - 48)) 0

/-- Parse an unsigned decimal literal (`"12"`, `"12.5"`, `"12."`, `".5"`),
the forms recognised by `pd.to_numeric`.  Anything else gives `none`. -/
def parseUnsigned (l : List Char) : Option ℚ :=
  let ds := l.takeWhile Char.isDigit
  let rest := l.dropWhile Char.isDigit
  match rest with
  | [] => if ds.isEmpty then none else some (natOfDigits ds)
  | c :: fs =>
    if c = '.' ∧ fs.all Char.isDigit ∧ (¬ ds.isEmpty ∨ ¬ fs.isEmpty) then
      some ((natOfDigits ds : ℚ) + (natOfDigits fs : ℚ) / ((10 : ℚ) ^ fs.length))
    else none

/-- Parse a signed decimal literal, modelling the per-cell behaviour of
`pd.to_numeric(..., errors='coerce')` on finite decimal text. -/
def parseRat (s : String) : Option ℚ :=
  match s.data with
  | [] => none
  | c :: cs =>
    if c = '-' then (parseUnsigned cs).map (fun q => -q)
    else if c = '+' then parseUnsigned cs
    else parseUnsigned (c :: cs)

/-- `pd.to_numeric` applied to one cell: numbers pass through, nulls stay
null, text is parsed. -/
def parseCell : Cell → Option ℚ
  | Cell.num q => some q
  | Cell.str s => parseRat s
  | Cell.null => none

/-- Result cell of the numeric coercion: parse failures become null
(`errors='coerce'`). -/
def coerceResultCell (c : Cell) : Cell :=
  match parseCell c with
  | some q => Cell.num q
  | none => Cell.null

def isNullCell : Cell → Bool
  | Cell.null => true
  | _ => false

/-! ### Cleaner (`clean_data_node`, steps 1-5) -/

/-- A row is completely empty when every cell (one per column) is null. -/
def allNullRow (ncols : Nat) (r : List Cell) : Bool :=
  (List.range ncols).all (fun j => isNullCell (r.getD j Cell.null))

/-- Step 1, `df.dropna(how='all')`: drop rows where every cell is null. -/
def dropnaT (t : Table) : Table :=
  { t with rows := t.rows.filter (fun p => ¬ allNullRow t.ncols p.2) }

/-- Step 2: strip whitespace from every text cell. -/
def trimT (t : Table) : Table :=
  { t with rows := t.rows.map (fun p => (p.1, p.2.map trimCell)) }

/-- Column `j` is upgraded to numeric when its dtype is `object` and at
least one cell parses (`numeric_series.notna().sum() > 0`). -/
def colUpgraded (t : Table) (j : Nat) : Bool :=
  t.dtypeAt j = DType.object ∧ (t.colCells j).any (fun c => (parseCell c).isSome)

/-- Apply `f j` to the cell at each column position `j`, starting at `j₀`. -/
def mapIdxFrom (f : Nat → α → β) : Nat → List α → List β
  | _, [] => []
  | j, a :: as => f j a :: mapIdxFrom f (j + 1) as

/-- Step 3: per-column numeric coercion.  Upgraded columns are replaced by
their parses (failures become null) and their dtype becomes numeric. -/
def coerceT (t : Table) : Table :=
  { cols := mapIdxFrom
      (fun j nd => if colUpgraded t j then (nd.1, DType.numeric) else nd) 0 t.cols,
    rows := t.rows.map (fun p =>
      (p.1, mapIdxFrom
        (fun j c => if colUpgraded t j then coerceResultCell c else c) 0 p.2)) }

/-- The dataframe on which the cleaning report is computed: after dropping
empty rows, trimming and coercion, before deduplication and imputation. -/
def cleanPre (t : Table) : Table := coerceT (trimT (dropnaT t))

/-- The `df.duplicated()` mask (keep='first'): a row is marked when an equal
row occurred earlier.  `seen` accumulates the row values already scanned. -/
def dupMaskFirst : List (List Cell) → List (List Cell) → List Bool
  | _, [] => []
  | seen, r :: rs => decide (r ∈ seen) :: dupMaskFirst (r :: seen) rs

/-- Step 4, `df.drop_duplicates()`: keep the first occurrence of every
distinct row value. -/
def dedupRows : List (List Cell) → List (Nat × List Cell) → List (Nat × List Cell)
  | _, [] => []
  | seen, p :: ps =>
    if p.2 ∈ seen then dedupRows (p.2 :: seen) ps
    else p :: dedupRows (p.2 :: seen) ps

def dedupT (t : Table) : Table :=
  { t with rows := dedupRows [] t.rows }

/-- The numeric values of a list of cells (pandas drops NaN before
computing medians, quantiles and the like). -/
def numsOf (cells : List Cell) : List ℚ :=
  cells.filterMap (fun c => match c with | Cell.num q => some q | _ => none)

/-- Pandas `Series.median()` over the non-null values: middle element of the
sorted list, or the mean of the two middle elements; `none` when empty. -/
def medianQ (l : List ℚ) : Option ℚ :=
  let s := List.insertionSort (· ≤ ·) l
  if s.length = 0 then none
  else if s.length % 2 = 1 then some (s.getD (s.length / 2) 0)
  else some ((s.getD (s.length / 2 - 1) 0 + s.getD (s.length / 2) 0) / 2)

/-- Total order on cells used to model the ascending sort inside
`Series.mode()` (ties in frequency resolve to the smallest value). -/
def cellLe (a b : Cell) : Prop :=
  match a, b with
  | Cell.null, _ => True
  | _, Cell.null => False
  | Cell.num x, Cell.num y => x ≤ y
  | Cell.num _, Cell.str _ => True
  | Cell.str _, Cell.num _ => False
  | Cell.str x, Cell.str y => x ≤ y

instance : DecidableRel cellLe := by
  intro a b; unfold cellLe
  cases a <;> cases b <;> infer_instance

/-- Pandas `Series.mode()[0]`: among the non-null values, the most frequent
one, ties broken by the ascending sort; `none` when every value is null. -/
def modeCell (cells : List Cell) : Option Cell :=
  let vs := cells.filter (fun c => ¬ isNullCell c)
  let cands := (List.insertionSort cellLe vs).dedup
  cands.foldl
    (fun best c =>
      match best with
      | none => some c
      | some b => if vs.count b < vs.count c then some c else best)
    none

/-- The value `fillna` uses for nulls of column `j`: the median for numeric
columns (null when the median does not exist, a no-op fill), the mode or
the literal `"Unknown"` for the rest. -/
def fillValue (t : Table) (j : Nat) : Cell :=
  if t.dtypeAt j = DType.numeric then
    match medianQ (numsOf (t.colCells j)) with
    | some m => Cell.num m
    | none => Cell.null
  else
    match modeCell (t.colCells j) with
    | some c => c
    | none => Cell.str "Unknown"

/-- Step 5, missing-value imputation: replace each null cell by its
column's fill value. -/
def imputeT (t : Table) : Table :=
  { t with rows := t.rows.map (fun p =>
      (p.1, mapIdxFrom
        (fun j c => if isNullCell c then fillValue t j else c) 0 p.2)) }

/-- The cleaned table produced by `clean_data_node`. -/
def clean_data (t : Table) : Table := imputeT (dedupT (cleanPre t))

structure Shape where
  rows : Nat
  cols : Nat
deriving DecidableEq

/-- The `cleaning_report` dictionary of `clean_data_node`. -/
structure CleaningReport where
  original_shape : Shape
  missing_values : List (String × Nat)
  duplicates : Nat
  data_types : List (String × DType)
  cleaned_shape : Shape
  rows_removed : Nat
deriving DecidableEq

/-- The report is computed on `cleanPre` (before dedup/imputation), except
for the cleaned shape and the removed-row count. -/
def cleaning_report (t : Table) : CleaningReport :=
  let d := cleanPre t
  let c := clean_data t
  { original_shape := ⟨d.nrows, d.ncols⟩,
    missing_values := mapIdxFrom
      (fun j nd => ((nd : String × DType).1, (d.colCells j).countP isNullCell)) 0 d.cols,
    duplicates := (dupMaskFirst [] (d.rows.map Prod.snd)).countP id,
    data_types := d.cols,
    cleaned_shape := ⟨c.nrows, c.ncols⟩,
    rows_removed := d.nrows - c.nrows }

/-! ### Statistics Summarizer (`generate_statistics_node`) -/

/-- Positions of the numeric columns, in column order
(`df.select_dtypes(include=[np.number]).columns`). -/
def numericIdx (t : Table) : List Nat :=
  (List.range t.ncols).filter (fun j => t.dtypeAt j = DType.numeric)

def numericNames (t : Table) : List String :=
  (numericIdx t).map t.colNameAt

/-- The rows where both column `i` and column `j` hold numbers: pandas
correlation uses pairwise-complete observations. -/
def pairCol (t : Table) (i j : Nat) : List (ℚ × ℚ) :=
  t.rows.filterMap (fun p =>
    match p.2.getD i Cell.null, p.2.getD j Cell.null with
    | Cell.num a, Cell.num b => some (a, b)
    | _, _ => none)

def meanFst (l : List (ℚ × ℚ)) : ℚ := ((l.map Prod.fst).sum) / l.length

def meanSnd (l : List (ℚ × ℚ)) : ℚ := ((l.map Prod.snd).sum) / l.length

/-- Centered sum of squares of the first components. -/
def sxx (l : List (ℚ × ℚ)) : ℚ := (l.map (fun p => (p.1 - meanFst l) ^ 2)).sum

/-- Centered sum of squares of the second components. -/
def syy (l : List (ℚ × ℚ)) : ℚ := (l.map (fun p => (p.2 - meanSnd l) ^ 2)).sum

/-- Centered sum of cross products. -/
def sxy (l : List (ℚ × ℚ)) : ℚ :=
  (l.map (fun p => (p.1 - meanFst l) * (p.2 - meanSnd l))).sum

/-- A Pearson correlation entry before float evaluation: `nanc` when a
column has zero variance (or fewer than two paired observations), so the
float quotient is `0/0 = NaN`; otherwise the exact centered sums whose
quotient `sxy / (sqrt sxx * sqrt syy)` is the correlation. -/
inductive CorrValC where
  | valc (xy xx yy : ℚ)
  | nanc
deriving DecidableEq

def corrC (t : Table) (i j : Nat) : CorrValC :=
  if sxx (pairCol t i j) = 0 ∨ syy (pairCol t i j) = 0 then CorrValC.nanc
  else CorrValC.valc (sxy (pairCol t i j)) (sxx (pairCol t i j)) (syy (pairCol t i j))

/-- The correlation matrix of `generate_statistics_node`, keyed by column
name pairs; computed only when at least two numeric columns exist. -/
def corrMatrix (t : Table) : List ((String × String) × CorrValC) :=
  if 2 ≤ (numericIdx t).length then
    (numericIdx t).flatMap (fun i =>
      (numericIdx t).map (fun j => ((t.colNameAt i, t.colNameAt j), corrC t i j)))
  else []

/-- The statistics report (the fields the formalised claims depend on:
shape, column list, correlation matrix). -/
structure StatsReport where
  shape : Shape
  columns : List String
  correlations : List ((String × String) × CorrValC)
deriving DecidableEq

def generate_statistics (t : Table) : StatsReport :=
  { shape := ⟨t.nrows, t.ncols⟩,
    columns := t.colNames,
    correlations := corrMatrix t }

/-- A JSON-level scalar as emitted to callers.  `jnan` is the Python float
NaN, which is distinct from the JSON null `jnull`. -/
inductive PyJson where
  | jnum (x : ℝ)
  | jnan
  | jnull
  | jstr (s : String)

/-- Float evaluation of a correlation entry as pandas produces it:
`cov / (std_x * std_y)` with real square roots, `NaN` when degenerate. -/
noncomputable def corrFloat : CorrValC → PyJson
  | CorrValC.nanc => PyJson.jnan
  | CorrValC.valc a b c =>
    PyJson.jnum ((a : ℝ) / (Real.sqrt (b : ℚ) * Real.sqrt (c : ℚ)))

/-- `convert_numpy` on a scalar: converts NumPy numeric scalars to native
Python ones (`int(obj)` / `float(obj)`), preserving the value — including
NaN, which stays NaN and is never mapped to `None`. -/
def convert_numpy (v : PyJson) : PyJson := v

/-! ### Anomaly Detector (`detect_anomalies_node`) -/

/-- Round half to even (Python `round(x, 2)` on the outlier percentage). -/
def roundHE (q : ℚ) : ℤ :=
  let f := ⌊q⌋
  let r := q - f
  if r < 1/2 then f else if 1/2 < r then f + 1 else if f % 2 = 0 then f else f + 1

def round2 (q : ℚ) : ℚ := (roundHE (q * 100) : ℚ) / 100

/-- Linear interpolation of a sorted sample at fractional position `h`:
value `x⌊h⌋ + (h−⌊h⌋)·(x⌊h⌋₊₁ − x⌊h⌋)`; the last sample is its own
right neighbour. -/
def interpAt (s : List ℚ) (h : ℚ) : ℚ :=
  s.getD (⌊h⌋).toNat 0 +
    (h - (⌊h⌋ : ℚ)) *
      (s.getD ((⌊h⌋).toNat + 1) (s.getD (⌊h⌋).toNat 0) - s.getD (⌊h⌋).toNat 0)

/-- Pandas linear-interpolation quantile of a sorted list: interpolate at
position `h = q·(n−1)`. -/
def quantileSorted (s : List ℚ) (q : ℚ) : ℚ :=
  interpAt s (q * ((s.length : ℚ) - 1))

/-- `Series.quantile(q)`: sort the non-null values and interpolate;
`none` (NaN) when there is no data. -/
def quantileQ (l : List ℚ) (q : ℚ) : Option ℚ :=
  if l = [] then none else some (quantileSorted (List.insertionSort (· ≤ ·) l) q)

/-- The rows of column `j` flagged by the IQR rule with fence multiplier
`k` (the source fixes `k = 1.5`): index label and value of every cell
outside `[Q1 − k·IQR, Q3 + k·IQR]`. -/
def outlierRowsK (t : Table) (j : Nat) (k : ℚ) : List (Nat × ℚ) :=
  match quantileQ (numsOf (t.colCells j)) (1/4), quantileQ (numsOf (t.colCells j)) (3/4) with
  | some q1, some q3 =>
    let iqr := q3 - q1
    t.rows.filterMap (fun p =>
      match p.2.getD j Cell.null with
      | Cell.num v =>
        if v < q1 - k * iqr ∨ q3 + k * iqr < v then some (p.1, v) else none
      | _ => none)
  | _, _ => []

structure OutlierInfo where
  count : Nat
  percentage : ℚ
  values : List ℚ
deriving DecidableEq

/-- The per-column entry of the `outliers` report (only present when some
row is flagged): count, percentage of rows rounded to 2 decimals, and the
first 10 flagged values in row order. -/
def outliersEntry (t : Table) (j : Nat) : Option OutlierInfo :=
  let o := outlierRowsK t j (3/2)
  if o.length = 0 then none
  else some ⟨o.length, round2 ((o.length : ℚ) / (t.nrows : ℚ) * 100),
             (o.map Prod.snd).take 10⟩

def outliersReport (t : Table) : List (String × OutlierInfo) :=
  (numericIdx t).filterMap (fun j =>
    (outliersEntry t j).map (fun e => (t.colNameAt j, e)))

/-- Python `str.lower()` on ASCII text. -/
def asciiLower (c : Char) : Char :=
  if c.toNat ≥ 65 ∧ c.toNat ≤ 90 then Char.ofNat (c.toNat + 32) else c

def pyLower (s : String) : String := ⟨s.data.map asciiLower⟩

/-- Sentinel-string test: a cell holding text whose trimmed, lowered form
is one of `"nan"`, `"null"`, `""`, `"none"`. -/
def isSentinelCell : Cell → Bool
  | Cell.str s => pyLower (pyStrip s) ∈ (["nan", "null", "", "none"] : List String)
  | _ => false

/-- The `invalid_values` report: for every column with at least one
sentinel cell, the list of those cells. -/
def invalidEntries (t : Table) : List (String × List Cell) :=
  (List.range t.ncols).filterMap (fun j =>
    let bad := (t.colCells j).filter isSentinelCell
    if bad = [] then none else some (t.colNameAt j, bad))

/-- The `missing_values` report of the detector: per-column null counts,
columns with zero nulls omitted. -/
def missingEntries (t : Table) : List (String × Nat) :=
  (List.range t.ncols).filterMap (fun j =>
    let m := (t.colCells j).countP isNullCell
    if m = 0 then none else some (t.colNameAt j, m))

/-- The `df.duplicated(keep=False)` mask: a row is marked when its value
occurs at least twice in the whole table. -/
def dupKeepFalse (t : Table) (p : Nat × List Cell) : Bool :=
  2 ≤ (t.rows.map Prod.snd).count p.2

/-- Index labels of all rows participating in a duplicate group. -/
def rowsWithDuplicates (t : Table) : List Nat :=
  (t.rows.filter (dupKeepFalse t)).map Prod.fst

/-- Count of rows participating in a duplicate group
(`df.duplicated(keep=False).sum()`). -/
def duplicatesCount (t : Table) : Nat :=
  (t.rows.filter (dupKeepFalse t)).length

/-- Python ordered comparison `cell < q` against a numeric constant:
numbers compare, NaN compares false, text raises `TypeError`. -/
def cmpLtConst (c : Cell) (q : ℚ) : Except String Bool :=
  match c with
  | Cell.num v => .ok (decide (v < q))
  | Cell.null => .ok false
  | Cell.str _ => .error "TypeError: ordered comparison between str and number"

/-- Python ordered comparison `cell > q` against a numeric constant. -/
def cmpGtConst (c : Cell) (q : ℚ) : Except String Bool :=
  match c with
  | Cell.num v => .ok (decide (q < v))
  | Cell.null => .ok false
  | Cell.str _ => .error "TypeError: ordered comparison between str and number"

/-- Python ordered comparison `a > b` between two cells: numbers and
strings compare within their own type, NaN against a number compares
false, and any mix of text with a number or NaN raises `TypeError`. -/
def cmpGtCell (a b : Cell) : Except String Bool :=
  match a, b with
  | Cell.num x, Cell.num y => .ok (decide (y < x))
  | Cell.str x, Cell.str y => .ok (decide (y < x))
  | Cell.num _, Cell.null => .ok false
  | Cell.null, Cell.num _ => .ok false
  | Cell.null, Cell.null => .ok false
  | _, _ => .error "TypeError: ordered comparison between str and other type"

/-- Filter a list through a fallible predicate; the first raised error
aborts the whole computation (pandas elementwise comparison semantics). -/
def exceptFilter (p : α → Except String Bool) : List α → Except String (List α)
  | [] => .ok []
  | a :: as => do
    let b ← p a
    let rest ← exceptFilter p as
    pure (if b then a :: rest else rest)

/-- Domain rule `invalid_age`: rows with `age < 18` or `age > 70`; the
entry is present with an empty list when the column is absent
(`... if "age" in df else []`). -/
def invalidAgeCheck (t : Table) : Except String (List Nat) :=
  match t.colIdx "age" with
  | none => .ok []
  | some j =>
    (exceptFilter (fun p => do
      let lt ← cmpLtConst ((p : Nat × List Cell).2.getD j Cell.null) 18
      let gt ← cmpGtConst (p.2.getD j Cell.null) 70
      pure (lt || gt)) t.rows).map (List.map Prod.fst)

/-- Domain rule `exp_gt_age`: rows where experience exceeds age (only when
both columns exist). -/
def expGtAgeCheck (t : Table) : Except String (Option (List Nat)) :=
  match t.colIdx "age", t.colIdx "years_experience" with
  | some ja, some je =>
    (exceptFilter (fun p => cmpGtCell ((p : Nat × List Cell).2.getD je Cell.null)
      (p.2.getD ja Cell.null)) t.rows).map (fun l => some (l.map Prod.fst))
  | _, _ => .ok none

/-- Domain rule `future_year`: rows whose `last_promotion_year` exceeds the
current calendar year (only when the column exists). -/
def futureYearCheck (t : Table) (currentYear : ℚ) : Except String (Option (List Nat)) :=
  match t.colIdx "last_promotion_year" with
  | none => .ok none
  | some j =>
    (exceptFilter (fun p => cmpGtConst ((p : Nat × List Cell).2.getD j Cell.null)
      currentYear) t.rows).map (fun l => some (l.map Prod.fst))

/-- Per numeric column, the rows holding a negative value (NaN compares
false); recorded under `negative_<column>` only when nonempty. -/
def negativeChecks (t : Table) : List (String × List Nat) :=
  (numericIdx t).filterMap (fun j =>
    let neg := (t.rows.filter (fun p =>
      match p.2.getD j Cell.null with
      | Cell.num v => decide (v < 0)
      | _ => false)).map Prod.fst
    if neg = [] then none else some ("negative_" ++ t.colNameAt j, neg))

/-- The `domain_anomalies` assembly, in source order. -/
def domainChecks (t : Table) (currentYear : ℚ) : Except String (List (String × List Nat)) := do
  let ia ← invalidAgeCheck t
  let ega ← expGtAgeCheck t
  let fy ← futureYearCheck t currentYear
  let base := [("invalid_age", ia)]
  let base := base ++ (match ega with | some l => [("exp_gt_age", l)] | none => [])
  let base := base ++ (match fy with | some l => [("future_year", l)] | none => [])
  pure (base ++ negativeChecks t)

/-- The numeric sub-matrix handed to the multivariate scorer, nulls
replaced by zero on the detector's private copy
(`df[numeric_cols].fillna(0)`). -/
def numMatrix (t : Table) : List (List ℚ) :=
  t.rows.map (fun p =>
    (numericIdx t).map (fun j =>
      match p.2.getD j Cell.null with
      | Cell.num q => q
      | _ => 0))

/-- Index labels flagged by the multivariate scorer.  The isolation-forest
ensemble itself (contamination 0.1, fixed seed) is an external library and
enters as the oracle `iso` returning the per-row anomaly mask. -/
def isoIndices (t : Table) (iso : List (List ℚ) → List Bool) : List Nat :=
  ((t.rows.zip (iso (numMatrix t))).filter (fun pb => pb.2)).map (fun pb => pb.1.1)

/-- The `anomalies` report of `detect_anomalies_node`. -/
structure Anomalies where
  outliers : List (String × OutlierInfo)
  invalid_values : List (String × List Cell)
  missing_values : List (String × Nat)
  domain_anomalies : List (String × List Nat)
  duplicates : Nat
  rows_with_duplicates : List Nat
  anomaly_indices : List Nat
  summary : String
deriving DecidableEq

/-- The body of `detect_anomalies_node`: the checks in source order.  Only
the domain-rule comparisons can raise; an error anywhere aborts the whole
body (the node has a single `try/except` around all checks), so no partial
report is produced. -/
def detect_anomalies (t : Table) (currentYear : ℚ)
    (iso : List (List ℚ) → List Bool) : Except String Anomalies := do
  let missing := missingEntries t
  let dups := duplicatesCount t
  let dupRows := rowsWithDuplicates t
  let invalid := invalidEntries t
  let outl := outliersReport t
  let domain ← domainChecks t currentYear
  let anomalyIdx := if 2 ≤ (numericIdx t).length then isoIndices t iso else []
  pure { outliers := outl,
         invalid_values := invalid,
         missing_values := missing,
         domain_anomalies := domain,
         duplicates := dups,
         rows_with_duplicates := dupRows,
         anomaly_indices := anomalyIdx,
         summary := "Advanced anomaly detection completed." }

/-! ### Pipeline state, nodes and run status
(`agents/graph.py`, `agents/state.py`, `main.py::analyze_dataset`) -/

/-- The slice of `AgentState` the core pipeline reads and writes. -/
structure PipeState where
  cleaned_data : Option Table
  cleaning_report : Option CleaningReport
  statistics : Option StatsReport
  anomalies : Option Anomalies
  errors : List String
  status : String
deriving DecidableEq

def initState : PipeState :=
  { cleaned_data := none, cleaning_report := none, statistics := none,
    anomalies := none, errors := [], status := "processing" }

/-- `clean_data_node`: loads and cleans the table, publishes the cleaned
data and report (file IO is outside the model; the in-memory table is the
input). -/
def clean_data_node (t : Table) (s : PipeState) : PipeState :=
  { s with cleaned_data := some (clean_data t),
           cleaning_report := some (cleaning_report t),
           status := "cleaning_completed" }

/-- `generate_statistics_node`: reads the cleaned data; a failure is
appended to the error list without touching the status. -/
def generate_statistics_node (s : PipeState) : PipeState :=
  match s.cleaned_data with
  | some df =>
    { s with statistics := some (generate_statistics df),
             status := "statistics_completed" }
  | none =>
    { s with errors := s.errors ++ ["Statistics generation error: no cleaned data"] }

/-- `detect_anomalies_node`: the single `try/except` around the whole body.
On success the report is published; on any sub-check failure the error is
appended, the `anomalies` field stays unset and the status is unchanged. -/
def detect_anomalies_node (currentYear : ℚ) (iso : List (List ℚ) → List Bool)
    (s : PipeState) : PipeState :=
  match s.cleaned_data with
  | none =>
    { s with errors := s.errors ++ ["Anomaly detection error: no cleaned data"] }
  | some df =>
    match detect_anomalies df currentYear iso with
    | .ok a => { s with anomalies := some a, status := "anomaly_detection_completed" }
    | .error e => { s with errors := s.errors ++ ["Anomaly detection error: " ++ e] }

/-- The core of the sequential LangGraph workflow: clean, then summarise,
then detect (the downstream visualization/insight/SQL nodes read but do
not affect these reports). -/
def run_analysis (t : Table) (currentYear : ℚ)
    (iso : List (List ℚ) → List Bool) : PipeState :=
  detect_anomalies_node currentYear iso
    (generate_statistics_node (clean_data_node t initState))

/-- `main.py::analyze_dataset` after the graph returns: any recorded error
marks the whole analysis `failed`; otherwise it is `completed`. -/
def analysis_status (s : PipeState) : String :=
  if s.errors = [] then "completed" else "failed"

/-! ### Loader / upload (`main.py::upload_file`, `clean_data_node` head) -/

inductive LoadError where
  | unsupportedFormat
deriving DecidableEq

/-- Python `str.endswith`: the pattern's characters are a suffix of the
string's characters. -/
def strEndsWith (s pat : String) : Bool :=
  pat.data.isSuffixOf s.data

/-- The extension test of `upload_file`:
`file.filename.endswith(('.csv', '.xlsx', '.xls'))`. -/
def hasSupportedExt (name : String) : Bool :=
  strEndsWith name ".csv" || strEndsWith name ".xlsx" || strEndsWith name ".xls"

/-- The Loader: reject unsupported extensions, otherwise hand the file to
the reader (`pd.read_csv` / `pd.read_excel`, abstracted as `read`) with no
further content validation. -/
def upload_file (name : String) (read : String → Table) : Except LoadError Table :=
  if hasSupportedExt name then .ok (read name) else .error LoadError.unsupportedFormat

instance {ε α : Type} [DecidableEq ε] [DecidableEq α] : DecidableEq (Except ε α)
  | Except.ok a, Except.ok b =>
    if h : a = b then isTrue (by rw [h]) else isFalse (by intro hc; cases hc; exact h rfl)
  | Except.ok _, Except.error _ => isFalse (by intro h; cases h)
  | Except.error _, Except.ok _ => isFalse (by intro h; cases h)
  | Except.error e, Except.error f =>
    if h : e = f then isTrue (by rw [h]) else isFalse (by intro hc; cases hc; exact h rfl)

/-! ### Concrete tables used by the witnesses and counterexamples -/

/-- A trivial multivariate-scorer oracle flagging nothing (its output is
irrelevant to every property proved here). -/
def isoNone : List (List ℚ) → List Bool := fun m => m.map (fun _ => false)

def emptyTable : Table := { cols := [], rows := [] }

/-- Object `age` column whose cells parse to nothing, plus a numeric
`salary` column with a negative value: the `age < 18` domain comparison
raises on text, so the detector body fails mid-way. -/
def tAgeText : Table :=
  { cols := [("age", DType.object), ("salary", DType.numeric)],
    rows := [(0, [Cell.str "aa", Cell.num (-5)]),
             (1, [Cell.str "bb", Cell.num 10])] }

/-- A numeric column `b` that is entirely null next to a populated `a`. -/
def tAllNullCol : Table :=
  { cols := [("a", DType.numeric), ("b", DType.numeric)],
    rows := [(0, [Cell.num 1, Cell.null]),
             (1, [Cell.num 2, Cell.null])] }

/-- The end-to-end scenario table of the specification: columns
`age, years_experience, salary`, rows `[25,3,50000]`, `[25,3,50000]`,
`[200,1,-10]`. -/
def tScenario : Table :=
  { cols := [("age", DType.numeric), ("years_experience", DType.numeric),
             ("salary", DType.numeric)],
    rows := [(0, [Cell.num 25, Cell.num 3, Cell.num 50000]),
             (1, [Cell.num 25, Cell.num 3, Cell.num 50000]),
             (2, [Cell.num 200, Cell.num 1, Cell.num (-10)])] }

/-- An object column that coerces to numeric: `"1"` and `"2"` parse, so the
sentinel `"NULL"` becomes a null and is then imputed away. -/
def tNullText : Table :=
  { cols := [("a", DType.object)],
    rows := [(0, [Cell.str "1"]), (1, [Cell.str "2"]), (2, [Cell.str "NULL"])] }

/-- Two numeric columns, the second with zero variance: its correlation
entries are NaN. -/
def tZeroVar : Table :=
  { cols := [("a", DType.numeric), ("b", DType.numeric)],
    rows := [(0, [Cell.num 1, Cell.num 5]),
             (1, [Cell.num 2, Cell.num 5]),
             (2, [Cell.num 3, Cell.num 5])] }

/-- Imputation creates a duplicate here: the null in row 0 is filled with
the median of column `b`, which is 5, making rows 0 and 1 equal. -/
def tImputeDup : Table :=
  { cols := [("a", DType.numeric), ("b", DType.numeric)],
    rows := [(0, [Cell.num 1, Cell.null]),
             (1, [Cell.num 1, Cell.num 5])] }

/-- A single numeric column with one extreme value, for the IQR witness. -/
def tIqr : Table :=
  { cols := [("x", DType.numeric)],
    rows := [(0, [Cell.num 1]), (1, [Cell.num 2]),
             (2, [Cell.num 3]), (3, [Cell.num 100])] }

/-! ## Helper lemmas -/

theorem mapIdxFrom_length (f : Nat → α → β) (j : Nat) (l : List α) :
    (mapIdxFrom f j l).length = l.length := by
  induction l generalizing j with
  | nil => rfl
  | cons a as ih => simp [mapIdxFrom, ih]

theorem mapIdxFrom_getD_of_lt (f : Nat → α → α) (j0 i : Nat) (l : List α) (d : α)
    (h : i < l.length) :
    (mapIdxFrom f j0 l).getD i d = f (j0 + i) (l.getD i d) := by
  induction l generalizing j0 i with
  | nil => simp at h
  | cons a as ih =>
    cases i with
    | zero => simp [mapIdxFrom]
    | succ n =>
      have hn : n < as.length := by simpa using h
      have := ih (j0 + 1) n hn
      simpa [mapIdxFrom, Nat.add_assoc, Nat.add_comm 1 n] using this

theorem mapIdxFrom_eq_self (f : Nat → α → α) (j0 : Nat) (l : List α)
    (h : ∀ i a, i < l.length → l.getD i a = a → f (j0 + i) a = a) :
    mapIdxFrom f j0 l = l := by
  induction l generalizing j0 with
  | nil => rfl
  | cons x xs ih =>
    have h0 : f j0 x = x := by
      have := h 0 x (by simp) (by simp)
      simpa using this
    have hrest : mapIdxFrom f (j0 + 1) xs = xs := by
      apply ih
      intro i a hi ha
      have := h (i + 1) a (by simpa using Nat.succ_lt_succ hi) (by simpa using ha)
      simpa [Nat.add_assoc, Nat.add_comm 1 i] using this
    simp [mapIdxFrom, h0, hrest]

/-- Scanning with the keep-first duplicate mask and deduplicating with the
same seen-set split the rows exactly. -/
theorem dupMask_dedup_length (seen : List (List Cell)) (l : List (Nat × List Cell)) :
    ((dupMaskFirst seen (l.map Prod.snd)).countP id) + (dedupRows seen l).length
      = l.length := by
  induction l generalizing seen with
  | nil => rfl
  | cons p ps ih =>
    have hih := ih (p.2 :: seen)
    by_cases hm : p.2 ∈ seen
    · have hmask : dupMaskFirst seen ((p :: ps).map Prod.snd)
          = true :: dupMaskFirst (p.2 :: seen) (ps.map Prod.snd) := by
        simp [dupMaskFirst, hm]
      have hded : dedupRows seen (p :: ps) = dedupRows (p.2 :: seen) ps := by
        simp [dedupRows, hm]
      rw [hmask, hded, List.countP_cons]
      simp only [List.length_cons, id_eq, if_true]
      omega
    · have hmask : dupMaskFirst seen ((p :: ps).map Prod.snd)
          = false :: dupMaskFirst (p.2 :: seen) (ps.map Prod.snd) := by
        simp [dupMaskFirst, hm]
      have hded : dedupRows seen (p :: ps) = p :: dedupRows (p.2 :: seen) ps := by
        simp [dedupRows, hm]
      rw [hmask, hded, List.countP_cons]
      simp only [List.length_cons, id_eq, if_false, Bool.false_eq_true]
      omega

theorem dedupRows_length_le (seen : List (List Cell)) (l : List (Nat × List Cell)) :
    (dedupRows seen l).length ≤ l.length := by
  have h := dupMask_dedup_length seen l
  omega

theorem dedupRows_subset (seen : List (List Cell)) (l : List (Nat × List Cell)) :
    ∀ p ∈ dedupRows seen l, p ∈ l := by
  induction l generalizing seen with
  | nil => intro p hp; simp [dedupRows] at hp
  | cons q qs ih =>
    intro p hp
    by_cases hm : q.2 ∈ seen
    · simp only [dedupRows, if_pos hm] at hp
      exact List.mem_cons_of_mem _ (ih (q.2 :: seen) p hp)
    · simp only [dedupRows, if_neg hm, List.mem_cons] at hp
      rcases hp with h | h
      · exact h ▸ List.mem_cons_self _ _
      · exact List.mem_cons_of_mem _ (ih (q.2 :: seen) p h)

/-- Every row value of the input has a representative (an equal row value)
in the deduplicated output, unless it was already seen. -/
theorem dedupRows_rowval_mem (seen : List (List Cell)) (l : List (Nat × List Cell)) :
    ∀ p ∈ l, p.2 ∈ seen ∨ p.2 ∈ (dedupRows seen l).map Prod.snd := by
  induction l generalizing seen with
  | nil => intro p hp; cases hp
  | cons q qs ih =>
    intro p hp
    have hrec : ∀ r, r ∈ (dedupRows (q.2 :: seen) qs).map Prod.snd →
        r ∈ (dedupRows seen (q :: qs)).map Prod.snd := by
      intro r hr
      by_cases hm : q.2 ∈ seen
      · simpa [dedupRows, if_pos hm] using hr
      · simp only [dedupRows, if_neg hm, List.map_cons, List.mem_cons]
        exact Or.inr hr
    have hq : q.2 ∈ seen ∨ q.2 ∈ (dedupRows seen (q :: qs)).map Prod.snd := by
      by_cases hm : q.2 ∈ seen
      · exact Or.inl hm
      · right
        simp [dedupRows, if_neg hm]
    rcases List.mem_cons.mp hp with rfl | hmem
    · exact hq
    · rcases ih (q.2 :: seen) p hmem with h | h
      · rcases List.mem_cons.mp h with h2 | h2
        · rcases hq with hq1 | hq1
          · exact Or.inl (h2 ▸ hq1)
          · exact Or.inr (h2 ▸ hq1)
        · exact Or.inl h2
      · exact Or.inr (hrec _ h)

/-- Deduplication is the identity on tables whose row values are pairwise
distinct and disjoint from the seen-set. -/
theorem dedupRows_eq_self (seen : List (List Cell)) (l : List (Nat × List Cell))
    (hseen : ∀ p ∈ l, (p : Nat × List Cell).2 ∉ seen)
    (hnd : (l.map Prod.snd).Nodup) :
    dedupRows seen l = l := by
  induction l generalizing seen with
  | nil => rfl
  | cons q qs ih =>
    have hm : q.2 ∉ seen := hseen q (List.mem_cons_self _ _)
    have hnd2 : (qs.map Prod.snd).Nodup := (List.nodup_cons.mp hnd).2
    have hq2 : q.2 ∉ qs.map Prod.snd := (List.nodup_cons.mp hnd).1
    rw [dedupRows, if_neg hm]
    congr 1
    apply ih (q.2 :: seen) _ hnd2
    intro p hp
    intro hmem
    rcases List.mem_cons.mp hmem with h | h
    · exact hq2 (h ▸ List.mem_map_of_mem Prod.snd hp)
    · exact hseen p (List.mem_cons_of_mem _ hp) h

/-! ### Shape and column preservation of the cleaning steps -/

theorem dropnaT_cols (t : Table) : (dropnaT t).cols = t.cols := rfl

theorem trimT_cols (t : Table) : (trimT t).cols = t.cols := rfl

theorem dedupT_cols (t : Table) : (dedupT t).cols = t.cols := rfl

theorem imputeT_cols (t : Table) : (imputeT t).cols = t.cols := rfl

theorem coerceT_colNames (t : Table) : (coerceT t).colNames = t.colNames := by
  show (mapIdxFrom _ 0 t.cols).map Prod.fst = t.cols.map Prod.fst
  generalize 0 = j0
  induction t.cols generalizing j0 with
  | nil => rfl
  | cons nd nds ih =>
    simp only [mapIdxFrom, List.map_cons, ih]
    congr 1
    by_cases h : colUpgraded t j0 <;> simp [h]

theorem coerceT_ncols (t : Table) : (coerceT t).ncols = t.ncols := by
  show (mapIdxFrom _ 0 t.cols).length = t.cols.length
  exact mapIdxFrom_length _ _ _

theorem trimT_nrows (t : Table) : (trimT t).nrows = t.nrows := by
  simp [trimT, Table.nrows]

theorem coerceT_nrows (t : Table) : (coerceT t).nrows = t.nrows := by
  simp [coerceT, Table.nrows]

theorem imputeT_nrows (t : Table) : (imputeT t).nrows = t.nrows := by
  simp [imputeT, Table.nrows]

theorem cleanPre_ncols (t : Table) : (cleanPre t).ncols = t.ncols := by
  rw [cleanPre, coerceT_ncols]
  rfl

theorem clean_data_cols (t : Table) : (clean_data t).cols = (cleanPre t).cols := rfl

theorem clean_data_ncols (t : Table) : (clean_data t).ncols = t.ncols := by
  show (clean_data t).cols.length = t.ncols
  rw [clean_data_cols]
  exact cleanPre_ncols t

theorem clean_data_nrows (t : Table) :
    (clean_data t).nrows = (dedupRows [] (cleanPre t).rows).length := by
  rw [clean_data, imputeT_nrows]
  rfl

/-! ## Claims -/

/-- Claim C7: for every input table, the CleaningReport satisfies
`cleaned_shape.rows ≤ original_shape.rows`, and `rows_removed` is exactly
the difference `original_shape.rows − cleaned_shape.rows` (stated
additively, so no truncated subtraction is hidden). -/
theorem C7_report_row_accounting (t : Table) :
    (cleaning_report t).cleaned_shape.rows ≤ (cleaning_report t).original_shape.rows ∧
    (cleaning_report t).rows_removed + (cleaning_report t).cleaned_shape.rows
      = (cleaning_report t).original_shape.rows := by
  have hle : (clean_data t).nrows ≤ (cleanPre t).nrows := by
    rw [clean_data_nrows]
    exact dedupRows_length_le [] (cleanPre t).rows
  constructor
  · exact hle
  · show (cleanPre t).nrows - (clean_data t).nrows + (clean_data t).nrows
      = (cleanPre t).nrows
    omega

/-- Claim C7 witness at a concrete table. -/
theorem C7_report_row_accounting_witness :
    (cleaning_report tScenario).cleaned_shape.rows
        ≤ (cleaning_report tScenario).original_shape.rows ∧
    (cleaning_report tScenario).rows_removed
        + (cleaning_report tScenario).cleaned_shape.rows
      = (cleaning_report tScenario).original_shape.rows :=
  C7_report_row_accounting tScenario

/-- Claim C10: the `duplicates` count of the CleaningReport (keep-first
duplicate mask, computed before deduplication) always equals the
`rows_removed` field recorded after deduplication. -/
theorem C10_duplicates_eq_rows_removed (t : Table) :
    (cleaning_report t).duplicates = (cleaning_report t).rows_removed := by
  have h := dupMask_dedup_length [] (cleanPre t).rows
  show (dupMaskFirst [] ((cleanPre t).rows.map Prod.snd)).countP id
      = (cleanPre t).nrows - (clean_data t).nrows
  rw [clean_data_nrows]
  unfold Table.nrows
  omega

/-- Claim C2: the Loader rejects every file path not ending in `.csv`,
`.xlsx` or `.xls` with the unsupported-format error, and for those three
extensions produces the read Table with no content validation (the result
is `ok` for every possible file content). -/
theorem C2_loader_extension_contract (name : String) (read : String → Table) :
    (hasSupportedExt name = false →
      upload_file name read = .error LoadError.unsupportedFormat) ∧
    (hasSupportedExt name = true → upload_file name read = .ok (read name)) := by
  constructor
  · intro h
    simp [upload_file, h]
  · intro h
    simp [upload_file, h]

/-- Claim C2 witness: a rejected `.txt` path and an accepted `.csv` path. -/
theorem C2_loader_extension_contract_witness :
    upload_file "report.txt" (fun _ => emptyTable)
        = .error LoadError.unsupportedFormat ∧
    upload_file "report.csv" (fun _ => emptyTable) = .ok emptyTable :=
  ⟨(C2_loader_extension_contract "report.txt" (fun _ => emptyTable)).1 (by decide),
   (C2_loader_extension_contract "report.csv" (fun _ => emptyTable)).2 (by decide)⟩

/-- Claim C1 counterexample: on `tAgeText` the `age` domain comparison
raises, the error is recorded, but the anomalies report is never published
(no sibling check contributes anything) and the analysis reports `failed`,
not `completed` as the claim states. -/
theorem C1_counterexample_detector_failure :
    (run_analysis tAgeText 2026 isoNone).errors ≠ [] ∧
    (run_analysis tAgeText 2026 isoNone).anomalies = none ∧
    analysis_status (run_analysis tAgeText 2026 isoNone) ≠ "completed" ∧
    analysis_status (run_analysis tAgeText 2026 isoNone) = "failed" := by
  refine ⟨by decide, by decide, by decide, by decide⟩

/-- Claim C1 (amended): when any anomaly sub-check fails, the single
`try/except` wrapped around the whole detector catches it; the sibling
checks contribute nothing (the anomalies report stays unpublished), the
error is appended to the caller-visible error list, and the analysis
endpoint reports `failed` for the run, not `completed`. -/
theorem C1_amended_detector_failure_fails_run (t : Table) (year : ℚ)
    (iso : List (List ℚ) → List Bool) (e : String)
    (h : detect_anomalies (clean_data t) year iso = .error e) :
    (run_analysis t year iso).anomalies = none ∧
    (run_analysis t year iso).errors = ["Anomaly detection error: " ++ e] ∧
    analysis_status (run_analysis t year iso) = "failed" := by
  unfold run_analysis detect_anomalies_node generate_statistics_node clean_data_node
    initState
  simp [h, analysis_status]

/-- Claim C1 witness: the amended behaviour at the concrete failing table. -/
theorem C1_amended_witness :
    (run_analysis tAgeText 2026 isoNone).anomalies = none ∧
    analysis_status (run_analysis tAgeText 2026 isoNone) = "failed" :=
  ⟨(C1_amended_detector_failure_fails_run tAgeText 2026 isoNone
      "TypeError: ordered comparison between str and number" (by decide)).1,
   (C1_amended_detector_failure_fails_run tAgeText 2026 isoNone
      "TypeError: ordered comparison between str and number" (by decide)).2.2⟩

/-- Claim C4 counterexample: on the spec's end-to-end scenario the
detector's duplicate census reports 0, not 2 — the Cleaner already removed
the duplicate row before the detector ran. -/
theorem C4_counterexample_duplicate_census :
    ((run_analysis tScenario 2026 isoNone).anomalies.map Anomalies.duplicates)
        = some 0 ∧
    ((run_analysis tScenario 2026 isoNone).anomalies.map Anomalies.duplicates)
        ≠ some 2 := by
  refine ⟨by decide, by decide⟩

/-- Claim C4 (amended): on the scenario table the detector's duplicate
census reports 0 (the Cleaner deduplicated first; the CleaningReport's own
`duplicates` field records 1), `negative_salary` holds the third row's
index 2, and the `age` domain rule flags the third row (the IQR check does
not fire for `age`). -/
theorem C4_amended_scenario :
    ((run_analysis tScenario 2026 isoNone).anomalies.map Anomalies.duplicates)
        = some 0 ∧
    ((run_analysis tScenario 2026 isoNone).cleaning_report.map
        CleaningReport.duplicates) = some 1 ∧
    ((run_analysis tScenario 2026 isoNone).anomalies.map
        (fun a => a.domain_anomalies.lookup "negative_salary")) = some (some [2]) ∧
    ((run_analysis tScenario 2026 isoNone).anomalies.map
        (fun a => a.domain_anomalies.lookup "invalid_age")) = some (some [2]) ∧
    ((run_analysis tScenario 2026 isoNone).anomalies.map
        (fun a => a.outliers.lookup "age")) = some none := by
  refine ⟨by decide, by decide, by decide, by decide, by decide⟩

/-! ### Column views of the cleaning steps -/

theorem getD_map_trimCell (r : List Cell) (j : Nat) :
    (r.map trimCell).getD j Cell.null = trimCell (r.getD j Cell.null) := by
  induction r generalizing j with
  | nil => cases j <;> rfl
  | cons c cs ih =>
    cases j with
    | zero => rfl
    | succ n => simpa using ih n

theorem mapIdxFrom_getD (f : Nat → Cell → Cell) (j0 j : Nat) (r : List Cell)
    (hd : f (j0 + j) Cell.null = Cell.null) :
    (mapIdxFrom f j0 r).getD j Cell.null = f (j0 + j) (r.getD j Cell.null) := by
  by_cases h : j < r.length
  · exact mapIdxFrom_getD_of_lt f j0 j r Cell.null h
  · have h1 : (mapIdxFrom f j0 r).getD j Cell.null = Cell.null :=
      List.getD_eq_default _ _ (by rw [mapIdxFrom_length]; omega)
    have h2 : r.getD j Cell.null = Cell.null :=
      List.getD_eq_default _ _ (by omega)
    rw [h1, h2, hd]

theorem colCells_trimT (t : Table) (j : Nat) :
    (trimT t).colCells j = (t.colCells j).map trimCell := by
  simp only [Table.colCells, trimT, List.map_map]
  apply List.map_congr_left
  intro p _
  exact getD_map_trimCell p.2 j

theorem colCells_coerceT (t : Table) (j : Nat) :
    (coerceT t).colCells j = (t.colCells j).map
      (fun c => if colUpgraded t j then coerceResultCell c else c) := by
  simp only [Table.colCells, coerceT, List.map_map]
  apply List.map_congr_left
  intro p _
  show (mapIdxFrom _ 0 p.2).getD j Cell.null = _
  rw [mapIdxFrom_getD]
  · simp
  · simp [coerceResultCell, parseCell]

theorem colCells_imputeT (t : Table) (j : Nat) (hR : t.Rect) (hj : j < t.ncols) :
    (imputeT t).colCells j = (t.colCells j).map
      (fun c => if isNullCell c then fillValue t j else c) := by
  simp only [Table.colCells, imputeT, List.map_map]
  apply List.map_congr_left
  intro p hp
  show (mapIdxFrom _ 0 p.2).getD j Cell.null = _
  rw [mapIdxFrom_getD_of_lt]
  · simp
  · rw [hR p hp]; exact hj

theorem colCells_dropnaT_sub (t : Table) (j : Nat) :
    ∀ c ∈ (dropnaT t).colCells j, c ∈ t.colCells j := by
  intro c hc
  rcases List.mem_map.mp hc with ⟨p, hp, rfl⟩
  exact List.mem_map_of_mem _ (List.mem_of_mem_filter hp)

theorem colCells_dedupT_sub (t : Table) (j : Nat) :
    ∀ c ∈ (dedupT t).colCells j, c ∈ t.colCells j := by
  intro c hc
  rcases List.mem_map.mp hc with ⟨p, hp, rfl⟩
  exact List.mem_map_of_mem _ (dedupRows_subset [] t.rows p hp)

theorem dtypeAt_coerceT (t : Table) (j : Nat) (hj : j < t.ncols) :
    (coerceT t).dtypeAt j
      = if colUpgraded t j then DType.numeric else t.dtypeAt j := by
  show ((mapIdxFrom _ 0 t.cols).getD j ("", DType.object)).2 = _
  rw [mapIdxFrom_getD_of_lt _ 0 j t.cols ("", DType.object) hj]
  by_cases h : colUpgraded t j <;> simp [h, Table.dtypeAt]

theorem dtypeAt_coerceT_out (t : Table) (j : Nat) (hj : ¬ j < t.ncols) :
    (coerceT t).dtypeAt j = DType.object := by
  show ((mapIdxFrom _ 0 t.cols).getD j ("", DType.object)).2 = _
  rw [List.getD_eq_default _ _ (by rw [mapIdxFrom_length]; exact le_of_not_lt hj)]

/-! ### Rectangularity and numeric-column preservation -/

theorem dropnaT_rect (t : Table) (h : t.Rect) : (dropnaT t).Rect := by
  intro p hp
  exact h p (List.mem_of_mem_filter hp)

theorem trimT_rect (t : Table) (h : t.Rect) : (trimT t).Rect := by
  intro p hp
  rcases List.mem_map.mp hp with ⟨q, hq, rfl⟩
  simpa using h q hq

theorem coerceT_rect (t : Table) (h : t.Rect) : (coerceT t).Rect := by
  intro p hp
  rcases List.mem_map.mp hp with ⟨q, hq, rfl⟩
  show (mapIdxFrom _ 0 q.2).length = (coerceT t).ncols
  rw [mapIdxFrom_length, coerceT_ncols]
  exact h q hq

theorem dedupT_rect (t : Table) (h : t.Rect) : (dedupT t).Rect := by
  intro p hp
  exact h p (dedupRows_subset [] t.rows p hp)

theorem imputeT_rect (t : Table) (h : t.Rect) : (imputeT t).Rect := by
  intro p hp
  rcases List.mem_map.mp hp with ⟨q, hq, rfl⟩
  show (mapIdxFrom _ 0 q.2).length = (imputeT t).ncols
  rw [mapIdxFrom_length]
  exact h q hq

theorem cleanPre_rect (t : Table) (h : t.Rect) : (cleanPre t).Rect :=
  coerceT_rect _ (trimT_rect _ (dropnaT_rect _ h))

theorem clean_data_rect (t : Table) (h : t.Rect) : (clean_data t).Rect :=
  imputeT_rect _ (dedupT_rect _ (cleanPre_rect _ h))

theorem isStrCell_trimCell (c : Cell) : isStrCell (trimCell c) = isStrCell c := by
  cases c <;> rfl

theorem isStrCell_coerceResultCell (c : Cell) : isStrCell (coerceResultCell c) = false := by
  unfold coerceResultCell
  cases parseCell c <;> rfl

theorem dropnaT_numOk (t : Table) (h : t.NumOk) : (dropnaT t).NumOk := by
  intro j hj c hc
  exact h j hj c (colCells_dropnaT_sub t j c hc)

theorem trimT_numOk (t : Table) (h : t.NumOk) : (trimT t).NumOk := by
  intro j hj c hc
  rw [colCells_trimT] at hc
  rcases List.mem_map.mp hc with ⟨c0, hc0, rfl⟩
  rw [isStrCell_trimCell]
  exact h j hj c0 hc0

theorem coerceT_numOk (t : Table) (h : t.NumOk) : (coerceT t).NumOk := by
  intro j hj c hc
  rw [colCells_coerceT] at hc
  rcases List.mem_map.mp hc with ⟨c0, hc0, rfl⟩
  by_cases hu : colUpgraded t j
  · rw [if_pos hu]
    exact isStrCell_coerceResultCell c0
  · rw [if_neg hu]
    by_cases hjr : j < t.ncols
    · rw [dtypeAt_coerceT t j hjr, if_neg hu] at hj
      exact h j hj c0 hc0
    · rw [dtypeAt_coerceT_out t j hjr] at hj
      cases hj

theorem dedupT_numOk (t : Table) (h : t.NumOk) : (dedupT t).NumOk := by
  intro j hj c hc
  exact h j hj c (colCells_dedupT_sub t j c hc)

theorem cleanPre_numOk (t : Table) (h : t.NumOk) : (cleanPre t).NumOk :=
  coerceT_numOk _ (trimT_numOk _ (dropnaT_numOk _ h))

/-! ### Imputation analysis -/

theorem medianQ_eq_none_iff (l : List ℚ) : medianQ l = none ↔ l = [] := by
  unfold medianQ
  have hlen : (List.insertionSort (· ≤ ·) l).length = l.length :=
    (List.perm_insertionSort _ l).length_eq
  by_cases h : (List.insertionSort (· ≤ ·) l).length = 0
  · simp only [if_pos h]
    have : l = [] := List.length_eq_zero.mp (by omega)
    simp [this]
  · simp only [if_neg h]
    have hne : l ≠ [] := by
      intro hc
      apply h
      rw [hlen, hc]
      rfl
    apply iff_of_false
    · split <;> simp
    · exact hne

theorem modeCell_foldl_mem (vs : List Cell) (cs : List Cell) (acc : Option Cell) (c : Cell)
    (h : cs.foldl (fun best x => match best with
        | none => some x
        | some b => if vs.count b < vs.count x then some x else best) acc = some c) :
    acc = some c ∨ c ∈ cs := by
  induction cs generalizing acc with
  | nil => exact Or.inl h
  | cons x xs ih =>
    rcases ih _ h with hstep | hmem
    · cases acc with
      | none =>
        have hx : x = c := by simpa using hstep
        exact Or.inr (hx ▸ List.mem_cons_self _ _)
      | some b =>
        by_cases hcnt : vs.count b < vs.count x
        · have hx : x = c := by simpa [hcnt] using hstep
          exact Or.inr (hx ▸ List.mem_cons_self _ _)
        · have hb : some b = some c := by simpa [hcnt] using hstep
          exact Or.inl hb
    · exact Or.inr (List.mem_cons_of_mem _ hmem)

theorem modeCell_mem (cells : List Cell) (c : Cell) (h : modeCell cells = some c) :
    c ∈ cells ∧ isNullCell c = false := by
  unfold modeCell at h
  rcases modeCell_foldl_mem _ _ _ _ h with hacc | hmem
  · cases hacc
  · have h2 : c ∈ List.insertionSort cellLe
        (cells.filter (fun x => ¬ isNullCell x)) := List.mem_dedup.mp hmem
    have h3 : c ∈ cells.filter (fun x => ¬ isNullCell x) :=
      (List.perm_insertionSort _ _).mem_iff.mp h2
    have h4 := List.mem_filter.mp h3
    refine ⟨h4.1, by simpa using h4.2⟩

theorem fillValue_num_null_iff (t : Table) (j : Nat)
    (h : t.dtypeAt j = DType.numeric) :
    (fillValue t j = Cell.null ↔ numsOf (t.colCells j) = []) := by
  unfold fillValue
  rw [if_pos h]
  constructor
  · intro hc
    cases hm : medianQ (numsOf (t.colCells j)) with
    | none => exact (medianQ_eq_none_iff _).mp hm
    | some m => rw [hm] at hc; cases hc
  · intro hnil
    have : medianQ (numsOf (t.colCells j)) = none := (medianQ_eq_none_iff _).mpr hnil
    rw [this]

theorem fillValue_object_ne_null (t : Table) (j : Nat)
    (h : ¬ t.dtypeAt j = DType.numeric) :
    fillValue t j ≠ Cell.null := by
  unfold fillValue
  rw [if_neg h]
  cases hm : modeCell (t.colCells j) with
  | none => intro hc; cases hc
  | some c =>
    intro hc
    have hcc : c = Cell.null := by simpa using hc
    have := (modeCell_mem _ _ hm).2
    rw [hcc] at this
    cases this

theorem numsOf_eq_nil_iff (cells : List Cell) :
    numsOf cells = [] ↔ ∀ q : ℚ, Cell.num q ∉ cells := by
  unfold numsOf
  rw [List.filterMap_eq_nil_iff]
  constructor
  · intro h q hq
    have := h _ hq
    simp at this
  · intro h c hc
    cases c with
    | num q => exact absurd hc (h q)
    | str s => rfl
    | null => rfl

/-- In a numeric column with no numeric values, every cell of a `NumOk`
table is null. -/
theorem allNull_of_numsOf_nil (t : Table) (j : Nat) (hN : t.NumOk)
    (hd : t.dtypeAt j = DType.numeric) (hnil : numsOf (t.colCells j) = []) :
    ∀ c ∈ t.colCells j, c = Cell.null := by
  intro c hc
  cases c with
  | num q => exact absurd hc ((numsOf_eq_nil_iff _).mp hnil q)
  | str s => cases hN j hd _ hc
  | null => rfl

/-- Claim C3 counterexample: after cleaning `tAllNullCol`, the numeric
column `b` (entirely null) still contains null cells — imputation is not
total, because the median of an all-null column is itself null and filling
with it changes nothing. -/
theorem C3_counterexample_allnull_numeric :
    Cell.null ∈ (clean_data tAllNullCol).colCells 1 ∧
    (clean_data tAllNullCol).nrows = 2 := by
  refine ⟨by decide, by decide⟩

/-- Claim C3 (amended): after cleaning, each null cell of the cleaned
table is replaced by the column's fill value — the median for numeric
columns, the most frequent value or `"Unknown"` for the rest — and the
only cells that can remain null sit in a numeric column that is entirely
null, which stays entirely null. -/
theorem C3_amended_imputation (t : Table) (hR : t.Rect) (hN : t.NumOk) (j : Nat)
    (hj : j < (clean_data t).ncols) :
    ((clean_data t).colCells j = ((dedupT (cleanPre t)).colCells j).map
        (fun c => if isNullCell c then fillValue (dedupT (cleanPre t)) j else c)) ∧
    (∀ c ∈ (clean_data t).colCells j, c = Cell.null →
      (clean_data t).dtypeAt j = DType.numeric ∧
      ∀ c2 ∈ (clean_data t).colCells j, c2 = Cell.null) := by
  have hRd : (dedupT (cleanPre t)).Rect := dedupT_rect _ (cleanPre_rect _ hR)
  have hNd : (dedupT (cleanPre t)).NumOk := dedupT_numOk _ (cleanPre_numOk _ hN)
  have hjd : j < (dedupT (cleanPre t)).ncols := by
    have h1 : (dedupT (cleanPre t)).ncols = (cleanPre t).ncols := rfl
    have h2 := cleanPre_ncols t
    have h3 := clean_data_ncols t
    omega
  have hcol : (clean_data t).colCells j = ((dedupT (cleanPre t)).colCells j).map
      (fun c => if isNullCell c then fillValue (dedupT (cleanPre t)) j else c) :=
    colCells_imputeT (dedupT (cleanPre t)) j hRd hjd
  refine ⟨hcol, ?_⟩
  intro c hc hcnull
  rw [hcol] at hc
  rcases List.mem_map.mp hc with ⟨c0, hc0, hc0eq⟩
  by_cases h0 : isNullCell c0
  · rw [if_pos h0] at hc0eq
    have hfill : fillValue (dedupT (cleanPre t)) j = Cell.null := by
      rw [hc0eq, hcnull]
    have hdt : (dedupT (cleanPre t)).dtypeAt j = DType.numeric := by
      by_contra hcon
      exact fillValue_object_ne_null _ j hcon hfill
    have hnil : numsOf ((dedupT (cleanPre t)).colCells j) = [] :=
      (fillValue_num_null_iff _ j hdt).mp hfill
    have hall := allNull_of_numsOf_nil _ j hNd hdt hnil
    constructor
    · exact hdt
    · intro c2 hc2 
      rw [hcol] at hc2
      rcases List.mem_map.mp hc2 with ⟨c1, hc1, hc1eq⟩
      have hc1null : c1 = Cell.null := hall c1 hc1
      rw [← hc1eq, hc1null]
      simp [isNullCell, hfill]
  · rw [if_neg h0] at hc0eq
    rw [hc0eq, hcnull] at h0
    exact absurd rfl h0

/-- Claim C3 witness: the amended statement at the all-null-column table. -/
theorem C3_amended_witness :
    Table.Rect tAllNullCol ∧ Table.NumOk tAllNullCol ∧
    (∀ c ∈ (clean_data tAllNullCol).colCells 1, c = Cell.null →
      (clean_data tAllNullCol).dtypeAt 1 = DType.numeric ∧
      ∀ c2 ∈ (clean_data tAllNullCol).colCells 1, c2 = Cell.null) :=
  ⟨by decide, by decide,
   (C3_amended_imputation tAllNullCol (by decide) (by decide) 1 (by decide)).2⟩

/-! ### Sentinel-string check -/

theorem invalidEntries_mem_iff (t : Table) (name : String) (cs : List Cell) :
    (name, cs) ∈ invalidEntries t ↔
      ∃ j, j < t.ncols ∧ name = t.colNameAt j ∧
        cs = (t.colCells j).filter isSentinelCell ∧ cs ≠ [] := by
  unfold invalidEntries
  rw [List.mem_filterMap]
  constructor
  · rintro ⟨j, hj, hval⟩
    have hjr : j < t.ncols := List.mem_range.mp hj
    by_cases hb : (t.colCells j).filter isSentinelCell = []
    · rw [if_pos hb] at hval
      cases hval
    · rw [if_neg hb] at hval
      have h1 : t.colNameAt j = name ∧ (t.colCells j).filter isSentinelCell = cs := by
        have := Option.some.inj hval
        exact ⟨congrArg Prod.fst this, congrArg Prod.snd this⟩
      exact ⟨j, hjr, h1.1.symm, h1.2.symm, by rw [← h1.2]; exact hb⟩
  · rintro ⟨j, hjr, hname, hcs, hne⟩
    refine ⟨j, List.mem_range.mpr hjr, ?_⟩
    have hb : ¬ (t.colCells j).filter isSentinelCell = [] := by
      rw [← hcs]; exact hne
    rw [if_neg hb, hname, hcs]

theorem isSentinelCell_false_of_not_str (c : Cell) (h : isStrCell c = false) :
    isSentinelCell c = false := by
  cases c with
  | num q => rfl
  | str s => cases h
  | null => rfl

/-- Cells of a coerced (upgraded) column of the cleaned table are never
text: the parses are numbers or nulls, and the numeric imputation fills
with the median. -/
theorem clean_upgraded_no_str (t : Table) (hR : t.Rect) (j : Nat)
    (hj : j < (clean_data t).ncols)
    (hu : colUpgraded (trimT (dropnaT t)) j = true) :
    ∀ c ∈ (clean_data t).colCells j, isStrCell c = false := by
  have hjt : j < t.ncols := by
    have := clean_data_ncols t
    omega
  have hjs : j < (trimT (dropnaT t)).ncols := hjt
  have hdt : (cleanPre t).dtypeAt j = DType.numeric := by
    unfold cleanPre
    rw [dtypeAt_coerceT _ j hjs, if_pos hu]
  have hdd : (dedupT (cleanPre t)).dtypeAt j = DType.numeric := hdt
  have hpre : ∀ c ∈ (cleanPre t).colCells j, isStrCell c = false := by
    intro c hc
    unfold cleanPre at hc
    rw [colCells_coerceT] at hc
    rcases List.mem_map.mp hc with ⟨c0, _, rfl⟩
    rw [if_pos hu]
    exact isStrCell_coerceResultCell c0
  have hded : ∀ c ∈ (dedupT (cleanPre t)).colCells j, isStrCell c = false := by
    intro c hc
    exact hpre c (colCells_dedupT_sub _ j c hc)
  have hfill : isStrCell (fillValue (dedupT (cleanPre t)) j) = false := by
    unfold fillValue
    rw [if_pos hdd]
    cases medianQ (numsOf ((dedupT (cleanPre t)).colCells j)) <;> rfl
  intro c hc
  have hRd : (dedupT (cleanPre t)).Rect := dedupT_rect _ (cleanPre_rect _ hR)
  have hjd : j < (dedupT (cleanPre t)).ncols := by
    have h2 := cleanPre_ncols t
    show j < (cleanPre t).ncols
    omega
  have hc2 : c ∈ (imputeT (dedupT (cleanPre t))).colCells j := hc
  rw [colCells_imputeT (dedupT (cleanPre t)) j hRd hjd] at hc2
  rcases List.mem_map.mp hc2 with ⟨c0, hc0, rfl⟩
  by_cases h0 : isNullCell c0
  · rw [if_pos h0]
    exact hfill
  · rw [if_neg h0]
    exact hded c0 hc0

/-- Claim C5 counterexample: in `tNullText` the cell `"NULL"` is a
sentinel, but its column coerces to numeric, so the cleaned table no
longer holds the text and the detector's `invalid_values` has no entry for
the column — the claim's "flagged even when coerced to numeric" fails. -/
theorem C5_counterexample_coerced_sentinel :
    isSentinelCell (Cell.str "NULL") = true ∧
    Cell.str "NULL" ∈ tNullText.colCells 0 ∧
    colUpgraded (trimT (dropnaT tNullText)) 0 = true ∧
    ((run_analysis tNullText 2026 isoNone).anomalies.map
        (fun a => a.invalid_values.lookup "a")) = some none := by
  refine ⟨by decide, by decide, by decide, by decide⟩

/-- Claim C5 (amended): the sentinel-string check records, per column,
exactly the cells of the detector's input (the cleaned table) whose
trimmed, case-folded text is one of `"nan"`, `"null"`, `""`, `"none"`;
a column the Cleaner successfully coerced to numeric retains no text at
all, so none of its cells — in particular no former `"NULL"` cell — is
flagged. -/
theorem C5_amended_sentinel (t : Table) (hR : t.Rect) :
    (∀ name cs, (name, cs) ∈ invalidEntries (clean_data t) ↔
      ∃ j, j < (clean_data t).ncols ∧ name = (clean_data t).colNameAt j ∧
        cs = ((clean_data t).colCells j).filter isSentinelCell ∧ cs ≠ []) ∧
    (∀ j, j < (clean_data t).ncols → colUpgraded (trimT (dropnaT t)) j = true →
      ((clean_data t).colCells j).filter isSentinelCell = []) ∧
    (∀ year iso a, detect_anomalies (clean_data t) year iso = Except.ok a →
      a.invalid_values = invalidEntries (clean_data t)) := by
  refine ⟨fun name cs => invalidEntries_mem_iff (clean_data t) name cs, ?_, ?_⟩
  · intro j hj hu
    rw [List.filter_eq_nil_iff]
    intro c hc
    have := clean_upgraded_no_str t hR j hj hu c hc
    rw [isSentinelCell_false_of_not_str c this]
    simp
  · intro year iso a ha
    unfold detect_anomalies at ha
    cases hd : domainChecks (clean_data t) year with
    | ok dc =>
      rw [hd] at ha
      simp only [Except.bind, Except.pure] at ha
      cases ha
      rfl
    | error e =>
      rw [hd] at ha
      simp only [Except.bind] at ha
      cases ha

/-- Claim C5 witness: the amended statement at the coerced-column table. -/
theorem C5_amended_witness :
    ((clean_data tNullText).colCells 0).filter isSentinelCell = [] :=
  (C5_amended_sentinel tNullText (by decide)).2.1 0 (by decide) (by decide)

/-! ### IQR quantiles -/

theorem sorted_getD_mono (s : List ℚ) (hs : List.Sorted (· ≤ ·) s) (i j : Nat)
    (hij : i ≤ j) (hj : j < s.length) : s.getD i 0 ≤ s.getD j 0 := by
  have hi : i < s.length := lt_of_le_of_lt hij hj
  rw [List.getD_eq_getElem s 0 hi, List.getD_eq_getElem s 0 hj]
  rcases Nat.lt_or_ge i j with hlt | hge
  · have hfin : (⟨i, hi⟩ : Fin s.length) < ⟨j, hj⟩ := hlt
    exact @List.Sorted.rel_get_of_lt ℚ (· ≤ ·) s hs ⟨i, hi⟩ ⟨j, hj⟩ hfin
  · have heq : i = j := le_antisymm hij hge
    subst heq
    exact le_rfl

/-- The left sample is below its right neighbour (or equals it when the
right neighbour falls off the end and defaults to the left sample). -/
theorem getD_succ_ge (s : List ℚ) (hs : List.Sorted (· ≤ ·) s) (i : Nat) :
    s.getD i 0 ≤ s.getD (i + 1) (s.getD i 0) := by
  by_cases hb : i + 1 < s.length
  · rw [List.getD_eq_getElem s _ hb, ← List.getD_eq_getElem s 0 hb]
    exact sorted_getD_mono s hs _ _ (Nat.le_succ _) hb
  · rw [List.getD_eq_default s (s.getD i 0) (show s.length ≤ i + 1 by omega)]

theorem interpAt_le_right (s : List ℚ) (hs : List.Sorted (· ≤ ·) s) (h : ℚ) :
    interpAt s h ≤ s.getD (⌊h⌋.toNat + 1) (s.getD ⌊h⌋.toNat 0) := by
  unfold interpAt
  have hflt : h < (⌊h⌋ : ℚ) + 1 := Int.lt_floor_add_one h
  have hab := getD_succ_ge s hs ⌊h⌋.toNat
  nlinarith [hflt, hab]

theorem interpAt_ge_left (s : List ℚ) (hs : List.Sorted (· ≤ ·) s) (h : ℚ) :
    s.getD ⌊h⌋.toNat 0 ≤ interpAt s h := by
  unfold interpAt
  have hfle : (⌊h⌋ : ℚ) ≤ h := Int.floor_le h
  have hab := getD_succ_ge s hs ⌊h⌋.toNat
  nlinarith [hfle, hab]

theorem interpAt_mono (s : List ℚ) (hs : List.Sorted (· ≤ ·) s) (h h' : ℚ)
    (hh0 : 0 ≤ h) (hhh : h ≤ h') (hhn : h' ≤ (s.length : ℚ) - 1) :
    interpAt s h ≤ interpAt s h' := by
  have hh0' : 0 ≤ h' := hh0.trans hhh
  have hfl0 : (0 : ℤ) ≤ ⌊h⌋ := Int.floor_nonneg.mpr hh0
  have hfl0' : (0 : ℤ) ≤ ⌊h'⌋ := Int.floor_nonneg.mpr hh0'
  have hile : ⌊h⌋.toNat ≤ ⌊h'⌋.toNat := by
    have := Int.floor_mono hhh
    omega
  have hi'lt : ⌊h'⌋.toNat < s.length := by
    by_cases hsl : 1 ≤ s.length
    · have h2 : ⌊h'⌋ ≤ ⌊(s.length : ℚ) - 1⌋ := Int.floor_mono hhn
      have h3 : ⌊(s.length : ℚ) - 1⌋ = (s.length : ℤ) - 1 := by
        rw [show ((s.length : ℚ) - 1) = (((s.length : ℤ) - 1 : ℤ) : ℚ) by push_cast; ring]
        exact Int.floor_intCast _
      omega
    · exfalso
      have hz : s.length = 0 := by omega
      rw [hz] at hhn
      have : h' ≤ -1 := by push_cast at hhn; linarith
      linarith
  rcases Nat.lt_or_ge ⌊h⌋.toNat ⌊h'⌋.toNat with hlt | hge
  · have hb1 : ⌊h⌋.toNat + 1 < s.length := by omega
    have hchain : s.getD (⌊h⌋.toNat + 1) (s.getD ⌊h⌋.toNat 0) ≤ s.getD ⌊h'⌋.toNat 0 := by
      rw [List.getD_eq_getElem s _ hb1, ← List.getD_eq_getElem s 0 hb1]
      exact sorted_getD_mono s hs _ _ (by omega) hi'lt
    calc interpAt s h ≤ s.getD (⌊h⌋.toNat + 1) (s.getD ⌊h⌋.toNat 0) :=
          interpAt_le_right s hs h
      _ ≤ s.getD ⌊h'⌋.toNat 0 := hchain
      _ ≤ interpAt s h' := interpAt_ge_left s hs h'
  · have hieq : ⌊h⌋.toNat = ⌊h'⌋.toNat := le_antisymm hile hge
    have hfeq : ⌊h⌋ = ⌊h'⌋ := by omega
    have hab := getD_succ_ge s hs ⌊h⌋.toNat
    unfold interpAt
    rw [← hieq, ← hfeq]
    nlinarith [hab, hhh]

theorem quantileSorted_mono (s : List ℚ) (hs : List.Sorted (· ≤ ·) s) (q q' : ℚ)
    (h0 : 0 ≤ q) (hqq : q ≤ q') (h1 : q' ≤ 1) :
    quantileSorted s q ≤ quantileSorted s q' := by
  unfold quantileSorted
  by_cases hz : s = []
  · subst hz
    simp [interpAt]
  · have hn : 1 ≤ s.length := List.length_pos.mpr hz
    have hn1 : (0 : ℚ) ≤ (s.length : ℚ) - 1 := by
      have : (1 : ℚ) ≤ (s.length : ℚ) := by exact_mod_cast hn
      linarith
    apply interpAt_mono s hs
    · exact mul_nonneg h0 hn1
    · exact mul_le_mul_of_nonneg_right hqq hn1
    · calc q' * ((s.length : ℚ) - 1) ≤ 1 * ((s.length : ℚ) - 1) :=
          mul_le_mul_of_nonneg_right h1 hn1
        _ = (s.length : ℚ) - 1 := one_mul _

theorem filterMap_length_mono {α β : Type} (f g : α → Option β) (l : List α)
    (h : ∀ a, (f a).isSome = true → (g a).isSome = true) :
    (l.filterMap f).length ≤ (l.filterMap g).length := by
  induction l with
  | nil => simp
  | cons a as ih =>
    cases hf : f a with
    | none =>
      rw [List.filterMap_cons_none hf]
      cases hg : g a with
      | none => rw [List.filterMap_cons_none hg]; exact ih
      | some b => rw [List.filterMap_cons_some hg]; simpa using Nat.le_succ_of_le ih
    | some b =>
      have hg : (g a).isSome = true := h a (by rw [hf]; rfl)
      rcases Option.isSome_iff_exists.mp hg with ⟨c, hc⟩
      rw [List.filterMap_cons_some hf, List.filterMap_cons_some hc]
      simpa using ih

/-- Claim C9: the IQR rule flags exactly the numeric cells outside the
`[Q1 − k·IQR, Q3 + k·IQR]` fences, and widening the fence multiplier
beyond the source's 1.5 can only shrink the flagged count. -/
theorem C9_iqr_rule_and_monotonicity (t : Table) (j : Nat) (k q1 q3 : ℚ)
    (hq1 : quantileQ (numsOf (t.colCells j)) (1/4) = some q1)
    (hq3 : quantileQ (numsOf (t.colCells j)) (3/4) = some q3) :
    (∀ i v, (i, v) ∈ outlierRowsK t j k ↔
      ∃ p ∈ t.rows, (p : Nat × List Cell).1 = i ∧ p.2.getD j Cell.null = Cell.num v ∧
        (v < q1 - k * (q3 - q1) ∨ q3 + k * (q3 - q1) < v)) ∧
    (3/2 ≤ k → (outlierRowsK t j k).length ≤ (outlierRowsK t j (3/2)).length) := by
  have hq13 : q1 ≤ q3 := by
    unfold quantileQ at hq1 hq3
    by_cases hnil : numsOf (t.colCells j) = []
    · rw [if_pos hnil] at hq1
      cases hq1
    · rw [if_neg hnil] at hq1 hq3
      have h1 := Option.some.inj hq1
      have h3 := Option.some.inj hq3
      rw [← h1, ← h3]
      exact quantileSorted_mono _
        (List.sorted_insertionSort _ _) (1/4) (3/4)
        (by norm_num) (by norm_num) (by norm_num)
  constructor
  · intro i v
    unfold outlierRowsK
    rw [hq1, hq3]
    simp only [List.mem_filterMap]
    constructor
    · rintro ⟨p, hp, hval⟩
      cases hcell : p.2.getD j Cell.null with
      | num w =>
        rw [hcell] at hval
        dsimp only at hval
        by_cases hcond : w < q1 - k * (q3 - q1) ∨ q3 + k * (q3 - q1) < w
        · rw [if_pos hcond] at hval
          have h2 := Option.some.inj hval
          have h2a : p.1 = i := congrArg Prod.fst h2
          have h2b : w = v := congrArg Prod.snd h2
          subst h2a
          subst h2b
          exact ⟨p, hp, rfl, hcell, hcond⟩
        · rw [if_neg hcond] at hval
          cases hval
      | str s => rw [hcell] at hval; cases hval
      | null => rw [hcell] at hval; cases hval
    · rintro ⟨p, hp, hi, hcell, hcond⟩
      refine ⟨p, hp, ?_⟩
      dsimp only
      rw [hcell]
      dsimp only
      rw [if_pos hcond, hi]
  · intro hk
    unfold outlierRowsK
    rw [hq1, hq3]
    apply filterMap_length_mono
    intro p hsome
    dsimp only at hsome ⊢
    cases hcell : p.2.getD j Cell.null with
    | num w =>
      rw [hcell] at hsome
      dsimp only at hsome ⊢
      by_cases hcond : w < q1 - k * (q3 - q1) ∨ q3 + k * (q3 - q1) < w
      · have hiqr : 0 ≤ q3 - q1 := by linarith
        have hcond2 : w < q1 - (3/2) * (q3 - q1) ∨ q3 + (3/2) * (q3 - q1) < w := by
          rcases hcond with hlo | hhi
          · left
            nlinarith
          · right
            nlinarith
        rw [if_pos hcond2]
        rfl
      · rw [if_neg hcond] at hsome
        simp at hsome
    | str s =>
      rw [hcell] at hsome
      simp at hsome
    | null =>
      rw [hcell] at hsome
      simp at hsome

/-- Claim C9 witness: concrete quantiles and the count inequality for the
widened fence `k = 2` on `tIqr`. -/
theorem C9_witness :
    quantileQ (numsOf (tIqr.colCells 0)) (1/4) = some (7/4) ∧
    quantileQ (numsOf (tIqr.colCells 0)) (3/4) = some (109/4) ∧
    (outlierRowsK tIqr 0 2).length ≤ (outlierRowsK tIqr 0 (3/2)).length :=
  ⟨by decide, by decide,
   (C9_iqr_rule_and_monotonicity tIqr 0 2 (7/4) (109/4) (by decide) (by decide)).2
     (by norm_num)⟩

/-! ### Correlation matrix -/

theorem list_sum_map_eq_sum_range {α : Type} (l : List α) (f : α → ℚ) (d : α) :
    (l.map f).sum = ∑ i ∈ Finset.range l.length, f (l.getD i d) := by
  induction l with
  | nil => simp
  | cons a as ih =>
    rw [List.map_cons, List.sum_cons, ih, List.length_cons, Finset.sum_range_succ']
    simp only [List.getD]
    rw [add_comm]
    rfl

theorem sxx_nonneg (l : List (ℚ × ℚ)) : 0 ≤ sxx l := by
  apply List.sum_nonneg
  intro x hx
  rcases List.mem_map.mp hx with ⟨p, _, rfl⟩
  positivity

theorem syy_nonneg (l : List (ℚ × ℚ)) : 0 ≤ syy l := by
  apply List.sum_nonneg
  intro x hx
  rcases List.mem_map.mp hx with ⟨p, _, rfl⟩
  positivity

/-- Cauchy-Schwarz for the centered sums. -/
theorem sxy_sq_le (l : List (ℚ × ℚ)) : (sxy l) ^ 2 ≤ sxx l * syy l := by
  have hxy := list_sum_map_eq_sum_range l
    (fun p => (p.1 - meanFst l) * (p.2 - meanSnd l)) (0, 0)
  have hxx := list_sum_map_eq_sum_range l (fun p => (p.1 - meanFst l) ^ 2) (0, 0)
  have hyy := list_sum_map_eq_sum_range l (fun p => (p.2 - meanSnd l) ^ 2) (0, 0)
  unfold sxy sxx syy
  rw [hxy, hxx, hyy]
  exact Finset.sum_mul_sq_le_sq_mul_sq (Finset.range l.length)
    (fun i => (l.getD i (0, 0)).1 - meanFst l) (fun i => (l.getD i (0, 0)).2 - meanSnd l)

theorem pairCol_swap (t : Table) (i j : Nat) :
    pairCol t j i = (pairCol t i j).map Prod.swap := by
  unfold pairCol
  rw [List.map_filterMap]
  apply List.filterMap_congr
  intro p _
  cases hci : p.2.getD i Cell.null <;> cases hcj : p.2.getD j Cell.null <;> rfl

theorem meanFst_swap (l : List (ℚ × ℚ)) : meanFst (l.map Prod.swap) = meanSnd l := by
  unfold meanFst meanSnd
  rw [List.map_map, List.length_map]
  rfl

theorem meanSnd_swap (l : List (ℚ × ℚ)) : meanSnd (l.map Prod.swap) = meanFst l := by
  unfold meanFst meanSnd
  rw [List.map_map, List.length_map]
  rfl

theorem sxx_swap (l : List (ℚ × ℚ)) : sxx (l.map Prod.swap) = syy l := by
  unfold sxx syy
  rw [List.map_map, meanFst_swap]
  rfl

theorem syy_swap (l : List (ℚ × ℚ)) : syy (l.map Prod.swap) = sxx l := by
  unfold sxx syy
  rw [List.map_map, meanSnd_swap]
  rfl

theorem sxy_swap (l : List (ℚ × ℚ)) : sxy (l.map Prod.swap) = sxy l := by
  unfold sxy
  rw [List.map_map, meanFst_swap, meanSnd_swap]
  apply congrArg
  apply List.map_congr_left
  intro p _
  show ((p.swap.1 : ℚ) - meanSnd l) * (p.swap.2 - meanFst l) = _
  show ((p.2 : ℚ) - meanSnd l) * (p.1 - meanFst l) = _
  ring

/-- Correlation entries are symmetric at the level of emitted floats. -/
theorem corrFloat_symm (t : Table) (i j : Nat) :
    corrFloat (corrC t i j) = corrFloat (corrC t j i) := by
  unfold corrC
  rw [pairCol_swap t i j, sxx_swap, syy_swap, sxy_swap]
  by_cases hx : sxx (pairCol t i j) = 0 ∨ syy (pairCol t i j) = 0
  · rw [if_pos hx, if_pos (Or.symm hx)]
  · rw [if_neg hx, if_neg (fun hc => hx (Or.symm hc))]
    unfold corrFloat
    dsimp only
    rw [mul_comm]

theorem corrFloat_valc_bound (a b c : ℚ) (hb : 0 < b) (hc : 0 < c)
    (hcs : a ^ 2 ≤ b * c) :
    -1 ≤ (a : ℝ) / (Real.sqrt (b : ℝ) * Real.sqrt (c : ℝ)) ∧
    (a : ℝ) / (Real.sqrt (b : ℝ) * Real.sqrt (c : ℝ)) ≤ 1 := by
  have hB : (0 : ℝ) < (b : ℝ) := by exact_mod_cast hb
  have hC : (0 : ℝ) < (c : ℝ) := by exact_mod_cast hc
  have hx2 : ((a : ℝ)) ^ 2 ≤ (b : ℝ) * (c : ℝ) := by exact_mod_cast hcs
  have habs : |(a : ℝ)| ≤ Real.sqrt ((b : ℝ) * (c : ℝ)) := Real.abs_le_sqrt hx2
  have hmul : Real.sqrt ((b : ℝ) * (c : ℝ)) = Real.sqrt (b : ℝ) * Real.sqrt (c : ℝ) :=
    Real.sqrt_mul hB.le _
  have hpos : 0 < Real.sqrt (b : ℝ) * Real.sqrt (c : ℝ) :=
    mul_pos (Real.sqrt_pos.mpr hB) (Real.sqrt_pos.mpr hC)
  have habs2 : |(a : ℝ) / (Real.sqrt (b : ℝ) * Real.sqrt (c : ℝ))| ≤ 1 := by
    rw [abs_div, abs_of_pos hpos]
    exact (div_le_one hpos).mpr (hmul ▸ habs)
  exact abs_le.mp habs2

theorem corrMatrix_mem_iff (t : Table) (h2 : 2 ≤ (numericIdx t).length)
    (key : String × String) (v : CorrValC) :
    (key, v) ∈ corrMatrix t ↔
      ∃ i ∈ numericIdx t, ∃ j ∈ numericIdx t,
        key = (t.colNameAt i, t.colNameAt j) ∧ v = corrC t i j := by
  unfold corrMatrix
  rw [if_pos h2]
  rw [List.mem_flatMap]
  constructor
  · rintro ⟨i, hi, hmem⟩
    rcases List.mem_map.mp hmem with ⟨j, hj, hval⟩
    have h1 : key = (t.colNameAt i, t.colNameAt j) := (congrArg Prod.fst hval).symm
    have h2 : v = corrC t i j := (congrArg Prod.snd hval).symm
    exact ⟨i, hi, j, hj, h1, h2⟩
  · rintro ⟨i, hi, j, hj, hkey, hv⟩
    refine ⟨i, hi, List.mem_map.mpr ⟨j, hj, ?_⟩⟩
    rw [hkey, hv]

/-- Claim C6 counterexample: with at least two numeric columns and a
zero-variance column, the emitted correlation entry (after the float
conversion of `convert_numpy`) is the float NaN, not the JSON null the
claim requires. -/
theorem C6_counterexample_nan_not_null :
    (generate_statistics (clean_data tZeroVar)).correlations.lookup ("a", "b")
        = some CorrValC.nanc ∧
    convert_numpy (corrFloat CorrValC.nanc) = PyJson.jnan ∧
    PyJson.jnan ≠ PyJson.jnull := by
  refine ⟨by decide, rfl, ?_⟩
  intro h
  cases h

/-- Claim C6 (amended): with at least two numeric columns the Statistics
Summarizer computes the Pearson matrix over exactly the numeric columns;
its emitted entries are symmetric and lie in `[-1, 1]`, and entries that
are NaN because a column has zero variance are emitted as NaN (converted
to a native float by `convert_numpy`), not as null. -/
theorem C6_amended_correlations (t : Table) (h2 : 2 ≤ (numericIdx t).length) :
    (∀ key v, (key, v) ∈ (generate_statistics t).correlations ↔
      ∃ i ∈ numericIdx t, ∃ j ∈ numericIdx t,
        key = (t.colNameAt i, t.colNameAt j) ∧ v = corrC t i j) ∧
    (∀ i j, corrFloat (corrC t i j) = corrFloat (corrC t j i)) ∧
    (∀ i j x, corrFloat (corrC t i j) = PyJson.jnum x → -1 ≤ x ∧ x ≤ 1) ∧
    (∀ i j, sxx (pairCol t i j) = 0 ∨ syy (pairCol t i j) = 0 →
      convert_numpy (corrFloat (corrC t i j)) = PyJson.jnan) := by
  refine ⟨fun key v => corrMatrix_mem_iff t h2 key v,
          fun i j => corrFloat_symm t i j, ?_, ?_⟩
  · intro i j x hx
    unfold corrC at hx
    by_cases hz : sxx (pairCol t i j) = 0 ∨ syy (pairCol t i j) = 0
    · rw [if_pos hz] at hx
      cases hx
    · rw [if_neg hz] at hx
      unfold corrFloat at hx
      dsimp only at hx
      have hxx : ¬ sxx (pairCol t i j) = 0 := fun hc => hz (Or.inl hc)
      have hyy : ¬ syy (pairCol t i j) = 0 := fun hc => hz (Or.inr hc)
      have hb : 0 < sxx (pairCol t i j) := lt_of_le_of_ne (sxx_nonneg _) (Ne.symm hxx)
      have hc : 0 < syy (pairCol t i j) := lt_of_le_of_ne (syy_nonneg _) (Ne.symm hyy)
      have hbound := corrFloat_valc_bound (sxy (pairCol t i j)) _ _ hb hc (sxy_sq_le _)
      have hxval : ((sxy (pairCol t i j) : ℚ) : ℝ) /
          (Real.sqrt (sxx (pairCol t i j) : ℝ) * Real.sqrt (syy (pairCol t i j) : ℝ))
            = x := by
        have := PyJson.jnum.inj hx
        exact this
      rw [← hxval]
      exact hbound
  · intro i j hz
    unfold corrC
    rw [if_pos hz]
    rfl

/-- Claim C6 witness: the amended statement instantiated at the cleaned
zero-variance table. -/
theorem C6_amended_witness :
    2 ≤ (numericIdx (clean_data tZeroVar)).length ∧
    convert_numpy (corrFloat (corrC (clean_data tZeroVar) 0 1)) = PyJson.jnan :=
  ⟨by decide,
   (C6_amended_correlations (clean_data tZeroVar) (by decide)).2.2.2 0 1 (by decide)⟩

/-! ### Idempotence of whitespace stripping -/

theorem dropWhile_eq_self_of_head {α : Type} (p : α → Bool) (l : List α)
    (h : ∀ c, l.head? = some c → p c = false) : l.dropWhile p = l := by
  cases l with
  | nil => rfl
  | cons a as =>
    have ha : p a = false := h a rfl
    simp [List.dropWhile_cons, ha]

theorem head_dropWhile_false {α : Type} (p : α → Bool) (l : List α) :
    ∀ c, (l.dropWhile p).head? = some c → p c = false := by
  induction l with
  | nil => intro c hc; cases hc
  | cons a as ih =>
    intro c hc
    by_cases ha : p a
    · rw [List.dropWhile_cons, if_pos ha] at hc
      exact ih c hc
    · rw [List.dropWhile_cons, if_neg ha] at hc
      have : a = c := Option.some.inj hc
      rw [← this]
      exact Bool.eq_false_iff.mpr ha

theorem getLast_dropWhile_eq {α : Type} (p : α → Bool) (l : List α)
    (h : l.dropWhile p ≠ []) : (l.dropWhile p).getLast? = l.getLast? := by
  induction l with
  | nil => cases h rfl
  | cons a as ih =>
    by_cases ha : p a
    · rw [List.dropWhile_cons, if_pos ha] at h ⊢
      cases has : as with
      | nil =>
        subst has
        cases h rfl
      | cons b bs =>
        rw [← has, ih h, has, List.getLast?_cons_cons]
    · rw [List.dropWhile_cons, if_neg ha]

/-- The character-list core of `pyStrip`. -/
theorem pyStrip_data (s : String) :
    (pyStrip s).data
      = ((s.data.dropWhile Char.isWhitespace).reverse.dropWhile
          Char.isWhitespace).reverse := rfl

theorem stripL_head_not_ws (l : List Char) :
    ∀ c, (((l.dropWhile Char.isWhitespace).reverse.dropWhile
        Char.isWhitespace).reverse).head? = some c → Char.isWhitespace c = false := by
  intro c hc
  rw [List.head?_reverse] at hc
  by_cases hnil : (l.dropWhile Char.isWhitespace).reverse.dropWhile Char.isWhitespace = []
  · rw [hnil] at hc
    cases hc
  · rw [getLast_dropWhile_eq _ _ hnil, List.getLast?_reverse] at hc
    exact head_dropWhile_false _ _ c hc

theorem stripL_getLast_not_ws (l : List Char) :
    ∀ c, (((l.dropWhile Char.isWhitespace).reverse.dropWhile
        Char.isWhitespace).reverse).getLast? = some c →
      Char.isWhitespace c = false := by
  intro c hc
  rw [List.getLast?_reverse] at hc
  exact head_dropWhile_false _ _ c hc

theorem pyStrip_idem (s : String) : pyStrip (pyStrip s) = pyStrip s := by
  have hdata : (pyStrip (pyStrip s)).data = (pyStrip s).data := by
    rw [pyStrip_data (pyStrip s)]
    have h1 : (pyStrip s).data.dropWhile Char.isWhitespace = (pyStrip s).data :=
      dropWhile_eq_self_of_head _ _ (by
        rw [pyStrip_data s]
        exact stripL_head_not_ws s.data)
    rw [h1]
    have h2 : (pyStrip s).data.reverse.dropWhile Char.isWhitespace
        = (pyStrip s).data.reverse :=
      dropWhile_eq_self_of_head _ _ (by
        intro c hc
        rw [List.head?_reverse] at hc
        revert hc
        rw [pyStrip_data s]
        exact stripL_getLast_not_ws s.data c)
    rw [h2, List.reverse_reverse]
  cases hps : pyStrip (pyStrip s) with
  | mk d1 =>
    cases hps2 : pyStrip s with
    | mk d2 =>
      rw [hps, hps2] at hdata
      simp only at hdata
      rw [hdata]

theorem trimCell_idem (c : Cell) : trimCell (trimCell c) = trimCell c := by
  cases c with
  | num q => rfl
  | null => rfl
  | str s =>
    show Cell.str (pyStrip (pyStrip s)) = Cell.str (pyStrip s)
    rw [pyStrip_idem]

/-! ### Fixpoints of the cleaning steps -/

theorem mem_mapIdxFrom {α β : Type} (f : Nat → α → β) (j0 : Nat) (l : List α) :
    ∀ b ∈ mapIdxFrom f j0 l, ∃ j a, a ∈ l ∧ b = f j a := by
  induction l generalizing j0 with
  | nil => intro b hb; cases hb
  | cons x xs ih =>
    intro b hb
    rcases List.mem_cons.mp hb with h | h
    · exact ⟨j0, x, List.mem_cons_self _ _, h⟩
    · rcases ih (j0 + 1) b h with ⟨j, a, ha, hba⟩
      exact ⟨j, a, List.mem_cons_of_mem _ ha, hba⟩

theorem isNullCell_trimCell (c : Cell) : isNullCell (trimCell c) = isNullCell c := by
  cases c <;> rfl

theorem trimCell_coerceResultCell (c : Cell) :
    trimCell (coerceResultCell c) = coerceResultCell c := by
  unfold coerceResultCell
  cases parseCell c <;> rfl

theorem trimT_eq_self (x : Table)
    (h : ∀ p ∈ x.rows, ∀ c ∈ (p : Nat × List Cell).2, trimCell c = c) :
    trimT x = x := by
  have hrows : x.rows.map (fun p => (p.1, p.2.map trimCell)) = x.rows := by
    have : ∀ p ∈ x.rows, (p.1, p.2.map trimCell) = p := by
      intro p hp
      have hm : p.2.map trimCell = p.2 := by
        have h1 : p.2.map trimCell = p.2.map id := List.map_congr_left (h p hp)
        rw [h1, List.map_id]
      rw [hm]
    calc x.rows.map (fun p => (p.1, p.2.map trimCell)) = x.rows.map id :=
          List.map_congr_left this
      _ = x.rows := List.map_id _
  show { x with rows := x.rows.map _ } = x
  rw [hrows]

theorem coerceT_eq_self (x : Table) (h : ∀ j, colUpgraded x j = false) :
    coerceT x = x := by
  have hcols : mapIdxFrom
      (fun j nd => if colUpgraded x j then (nd.1, DType.numeric) else nd) 0 x.cols
        = x.cols := by
    apply mapIdxFrom_eq_self
    intro i a _ _
    rw [h (0 + i)]
    simp
  have hrows : x.rows.map (fun p =>
      (p.1, mapIdxFrom
        (fun j c => if colUpgraded x j then coerceResultCell c else c) 0 p.2))
        = x.rows := by
    have : ∀ p ∈ x.rows, (p.1, mapIdxFrom
        (fun j c => if colUpgraded x j then coerceResultCell c else c) 0 p.2) = p := by
      intro p _
      have hm : mapIdxFrom
          (fun j c => if colUpgraded x j then coerceResultCell c else c) 0 p.2
            = p.2 := by
        apply mapIdxFrom_eq_self
        intro i a _ _
        rw [h (0 + i)]
        simp
      rw [hm]
    calc x.rows.map _ = x.rows.map id := List.map_congr_left this
      _ = x.rows := List.map_id _
  show { cols := _, rows := _ } = x
  rw [hcols, hrows]

theorem dropnaT_eq_self (x : Table)
    (h : ∀ p ∈ x.rows, allNullRow x.ncols (p : Nat × List Cell).2 = false) :
    dropnaT x = x := by
  have hrows : x.rows.filter (fun p => ¬ allNullRow x.ncols p.2) = x.rows := by
    rw [List.filter_eq_self]
    intro p hp
    rw [h p hp]
    rfl
  show { x with rows := _ } = x
  rw [hrows]

theorem dedupT_eq_self (x : Table) (hnd : (x.rows.map Prod.snd).Nodup) :
    dedupT x = x := by
  have hrows : dedupRows [] x.rows = x.rows :=
    dedupRows_eq_self [] x.rows (by intro p _ hc; cases hc) hnd
  show { x with rows := _ } = x
  rw [hrows]

theorem imputeT_eq_self (x : Table) (hR : x.Rect)
    (h : ∀ j, j < x.ncols → Cell.null ∈ x.colCells j → fillValue x j = Cell.null) :
    imputeT x = x := by
  have hrows : x.rows.map (fun p =>
      (p.1, mapIdxFrom (fun j c => if isNullCell c then fillValue x j else c) 0 p.2))
        = x.rows := by
    have hfix : ∀ p ∈ x.rows, (p.1, mapIdxFrom
        (fun j c => if isNullCell c then fillValue x j else c) 0 p.2) = p := by
      intro p hp
      have hm : mapIdxFrom
          (fun j c => if isNullCell c then fillValue x j else c) 0 p.2 = p.2 := by
        apply mapIdxFrom_eq_self
        intro i a hi ha
        by_cases hnull : isNullCell a
        · have hcell : p.2.getD i Cell.null = a := by
            rw [List.getD_eq_getElem p.2 Cell.null hi, ← List.getD_eq_getElem p.2 a hi, ha]
          have hmem : a ∈ x.colCells i :=
            hcell ▸ List.mem_map_of_mem _ hp
          have hian : a = Cell.null := by
            cases a with
            | null => rfl
            | num q => cases hnull
            | str s => cases hnull
          have hin : i < x.ncols := by
            have := hR p hp
            omega
          have := h i hin (hian ▸ hmem)
          rw [if_pos hnull, Nat.zero_add, this, hian]
        · rw [if_neg hnull]
      rw [hm]
    calc x.rows.map _ = x.rows.map id := List.map_congr_left hfix
      _ = x.rows := List.map_id _
  show { x with rows := _ } = x
  rw [hrows]

/-! ### Cell provenance through the Cleaner -/

theorem mem_row_of_colCells (x : Table) (j : Nat) (c : Cell)
    (hc : c ∈ x.colCells j) (hnn : c ≠ Cell.null) :
    ∃ p ∈ x.rows, c ∈ (p : Nat × List Cell).2 := by
  rcases List.mem_map.mp hc with ⟨p, hp, hval⟩
  by_cases hj : j < p.2.length
  · refine ⟨p, hp, ?_⟩
    rw [← hval, List.getD_eq_getElem p.2 Cell.null hj]
    exact List.getElem_mem hj
  · exfalso
    apply hnn
    rw [← hval, List.getD_eq_default p.2 Cell.null (by omega)]

theorem trimT_cells_fixed (x : Table) :
    ∀ p ∈ (trimT x).rows, ∀ c ∈ (p : Nat × List Cell).2, trimCell c = c := by
  intro p hp c hc
  rcases List.mem_map.mp hp with ⟨q, _, rfl⟩
  rcases List.mem_map.mp hc with ⟨c0, _, rfl⟩
  exact trimCell_idem c0

theorem coerceT_cells_fixed (x : Table)
    (hx : ∀ p ∈ x.rows, ∀ c ∈ (p : Nat × List Cell).2, trimCell c = c) :
    ∀ p ∈ (coerceT x).rows, ∀ c ∈ (p : Nat × List Cell).2, trimCell c = c := by
  intro p hp c hc
  rcases List.mem_map.mp hp with ⟨q, hq, rfl⟩
  rcases mem_mapIdxFrom _ 0 q.2 c hc with ⟨j, a, ha, rfl⟩
  by_cases hu : colUpgraded x j
  · rw [if_pos hu]
    exact trimCell_coerceResultCell a
  · rw [if_neg hu]
    exact hx q hq a ha

theorem cleanPre_cells_fixed (t : Table) :
    ∀ p ∈ (cleanPre t).rows, ∀ c ∈ (p : Nat × List Cell).2, trimCell c = c :=
  coerceT_cells_fixed _ (trimT_cells_fixed _)

theorem dedup_cleanPre_cells_fixed (t : Table) :
    ∀ p ∈ (dedupT (cleanPre t)).rows, ∀ c ∈ (p : Nat × List Cell).2,
      trimCell c = c := by
  intro p hp
  exact cleanPre_cells_fixed t p (dedupRows_subset [] _ p hp)

theorem fillValue_trimFixed (x : Table)
    (hx : ∀ p ∈ x.rows, ∀ c ∈ (p : Nat × List Cell).2, trimCell c = c) (j : Nat) :
    trimCell (fillValue x j) = fillValue x j := by
  unfold fillValue
  by_cases hd : x.dtypeAt j = DType.numeric
  · rw [if_pos hd]
    cases medianQ (numsOf (x.colCells j)) <;> rfl
  · rw [if_neg hd]
    cases hm : modeCell (x.colCells j) with
    | none =>
      show Cell.str (pyStrip "Unknown") = Cell.str "Unknown"
      have : pyStrip "Unknown" = "Unknown" := by decide
      rw [this]
    | some m =>
      have hmm := modeCell_mem _ _ hm
      have hnn : m ≠ Cell.null := by
        intro hc
        rw [hc] at hmm
        cases hmm.2
      rcases mem_row_of_colCells x j m hmm.1 hnn with ⟨p, hp, hmp⟩
      exact hx p hp m hmp

theorem clean_cells_trimFixed (t : Table) :
    ∀ p ∈ (clean_data t).rows, ∀ c ∈ (p : Nat × List Cell).2, trimCell c = c := by
  intro p hp c hc
  rcases List.mem_map.mp hp with ⟨q, hq, rfl⟩
  rcases mem_mapIdxFrom _ 0 q.2 c hc with ⟨j, a, ha, rfl⟩
  by_cases hnull : isNullCell a
  · rw [if_pos hnull]
    exact fillValue_trimFixed _ (dedup_cleanPre_cells_fixed t) j
  · rw [if_neg hnull]
    exact dedup_cleanPre_cells_fixed t q hq a ha

/-- Deduplication preserves the set of cells of every column (row values
survive through their kept first occurrence). -/
theorem colCells_dedupT_sup (x : Table) (j : Nat) :
    ∀ c ∈ x.colCells j, c ∈ (dedupT x).colCells j := by
  intro c hc
  rcases List.mem_map.mp hc with ⟨p, hp, hval⟩
  rcases dedupRows_rowval_mem [] x.rows p hp with h | h
  · cases h
  · rcases List.mem_map.mp h with ⟨p2, hp2, hv2⟩
    refine List.mem_map.mpr ⟨p2, hp2, ?_⟩
    rw [hv2, hval]

theorem colUpgraded_parse_exists (x : Table) (j : Nat)
    (hu : colUpgraded x j = true) :
    ∃ c ∈ x.colCells j, (parseCell c).isSome = true := by
  unfold colUpgraded at hu
  simp only [Bool.and_eq_true, decide_eq_true_eq, List.any_eq_true] at hu
  exact hu.2

theorem colUpgraded_false_no_parse (x : Table) (j : Nat)
    (hd : x.dtypeAt j = DType.object) (hu : colUpgraded x j = false) :
    ∀ c ∈ x.colCells j, parseCell c = none := by
  unfold colUpgraded at hu
  rw [Bool.eq_false_iff] at hu
  have hany : ¬ ((x.colCells j).any fun c => (parseCell c).isSome) = true := by
    intro hc
    exact hu (by simp only [Bool.and_eq_true, decide_eq_true_eq]; exact ⟨hd, hc⟩)
  rw [List.any_eq_true] at hany
  push_neg at hany
  intro c hc
  exact Option.not_isSome_iff_eq_none.mp (by simpa using hany c hc)

theorem numsOf_mem (cells : List Cell) (q : ℚ) (h : Cell.num q ∈ cells) :
    q ∈ numsOf cells := by
  unfold numsOf
  exact List.mem_filterMap.mpr ⟨Cell.num q, h, rfl⟩

/-- Object columns of the cleaned table still parse to nothing, so a
second coercion pass upgrades no column. -/
theorem clean_object_no_parse (t : Table) (hR : t.Rect) (j : Nat)
    (hobj : (clean_data t).dtypeAt j = DType.object) :
    ∀ c ∈ (clean_data t).colCells j, parseCell c = none := by
  have hRc : (clean_data t).Rect := clean_data_rect t hR
  by_cases hj : j < (clean_data t).ncols
  · -- in range: the column was not upgraded, so its cells never parsed
    have hjt : j < t.ncols := by
      have := clean_data_ncols t
      omega
    have hd3 : (cleanPre t).dtypeAt j = (clean_data t).dtypeAt j := rfl
    have hju : colUpgraded (trimT (dropnaT t)) j = false := by
      by_contra hc
      have hc2 : colUpgraded (trimT (dropnaT t)) j = true := by
        cases h : colUpgraded (trimT (dropnaT t)) j
        · exact absurd h hc
        · rfl
      have : (cleanPre t).dtypeAt j = DType.numeric := by
        unfold cleanPre
        rw [dtypeAt_coerceT (trimT (dropnaT t)) j hjt, if_pos hc2]
      rw [hd3, hobj] at this
      cases this
    have hd2 : (trimT (dropnaT t)).dtypeAt j = DType.object := by
      have : (cleanPre t).dtypeAt j = (trimT (dropnaT t)).dtypeAt j := by
        unfold cleanPre
        rw [dtypeAt_coerceT (trimT (dropnaT t)) j hjt,
          if_neg (by rw [hju]; exact Bool.false_ne_true)]
      rw [← this, hd3, hobj]
    have hs2 : ∀ c ∈ (trimT (dropnaT t)).colCells j, parseCell c = none :=
      colUpgraded_false_no_parse _ j hd2 hju
    have hs3 : ∀ c ∈ (cleanPre t).colCells j, parseCell c = none := by
      intro c hc
      unfold cleanPre at hc
      rw [colCells_coerceT] at hc
      rcases List.mem_map.mp hc with ⟨c0, hc0, rfl⟩
      rw [if_neg (by rw [hju]; exact Bool.false_ne_true)]
      exact hs2 c0 hc0
    have hs4 : ∀ c ∈ (dedupT (cleanPre t)).colCells j, parseCell c = none := by
      intro c hc
      exact hs3 c (colCells_dedupT_sub _ j c hc)
    have hd4 : ¬ (dedupT (cleanPre t)).dtypeAt j = DType.numeric := by
      show ¬ (cleanPre t).dtypeAt j = DType.numeric
      rw [hd3, hobj]
      intro hc
      cases hc
    have hRd : (dedupT (cleanPre t)).Rect := dedupT_rect _ (cleanPre_rect _ hR)
    have hjd : j < (dedupT (cleanPre t)).ncols := by
      have := cleanPre_ncols t
      show j < (cleanPre t).ncols
      omega
    intro c hc
    have hc2 : c ∈ (imputeT (dedupT (cleanPre t))).colCells j := hc
    rw [colCells_imputeT _ j hRd hjd] at hc2
    rcases List.mem_map.mp hc2 with ⟨c0, hc0, rfl⟩
    by_cases hnull : isNullCell c0
    · rw [if_pos hnull]
      unfold fillValue
      rw [if_neg hd4]
      cases hm : modeCell ((dedupT (cleanPre t)).colCells j) with
      | none =>
        show parseRat "Unknown" = none
        decide
      | some m =>
        exact hs4 m (modeCell_mem _ _ hm).1
    · rw [if_neg hnull]
      exact hs4 c0 hc0
  · -- out of range: every read is null
    intro c hc
    rcases List.mem_map.mp hc with ⟨p, hp, hval⟩
    have hlen : p.2.length = (clean_data t).ncols := hRc p hp
    rw [← hval, List.getD_eq_default p.2 Cell.null (by omega)]
    rfl

theorem clean_colUpgraded_false (t : Table) (hR : t.Rect) (j : Nat) :
    colUpgraded (clean_data t) j = false := by
  by_cases hd : (clean_data t).dtypeAt j = DType.object
  · have hnp := clean_object_no_parse t hR j hd
    rw [Bool.eq_false_iff]
    intro hc
    rcases colUpgraded_parse_exists _ j hc with ⟨c, hcm, hcs⟩
    rw [hnp c hcm] at hcs
    cases hcs
  · rw [Bool.eq_false_iff]
    intro hc
    unfold colUpgraded at hc
    simp only [Bool.and_eq_true, decide_eq_true_eq] at hc
    exact hd hc.1

theorem isNullCell_eq_false_iff (c : Cell) :
    isNullCell c = false ↔ c ≠ Cell.null := by
  cases c <;> simp [isNullCell]

theorem allNullRow_false_iff (n : Nat) (r : List Cell) :
    allNullRow n r = false ↔ ∃ j, j < n ∧ isNullCell (r.getD j Cell.null) = false := by
  unfold allNullRow
  rw [Bool.eq_false_iff]
  constructor
  · intro h
    by_contra hc
    push_neg at hc
    apply h
    rw [List.all_eq_true]
    intro j hj
    have := hc j (List.mem_range.mp hj)
    cases hb : isNullCell (r.getD j Cell.null) with
    | true => rfl
    | false => exact absurd hb this
  · rintro ⟨j, hj, hb⟩ hall
    rw [List.all_eq_true] at hall
    have := hall j (List.mem_range.mpr hj)
    rw [hb] at this
    cases this

/-- No row of the cleaned table is entirely null: each surviving row had a
non-null cell, and that cell either survives all steps or (when coercion
nullified it in an upgraded column) is re-filled with the column median. -/
theorem clean_no_allNull_rows (t : Table) (hR : t.Rect) :
    ∀ p ∈ (clean_data t).rows,
      allNullRow (clean_data t).ncols (p : Nat × List Cell).2 = false := by
  intro p hp
  rcases List.mem_map.mp hp with ⟨q, hq4, rfl⟩
  have hq3 : q ∈ (cleanPre t).rows := dedupRows_subset [] _ q hq4
  rcases List.mem_map.mp hq3 with ⟨r2, hr2, hq⟩
  rcases List.mem_map.mp hr2 with ⟨r1, hr1, hr2eq⟩
  have hr1t : r1 ∈ t.rows := List.mem_of_mem_filter hr1
  have hfil := List.of_mem_filter hr1
  have hall1 : allNullRow t.ncols r1.2 = false := by
    cases hb : allNullRow t.ncols r1.2 with
    | false => rfl
    | true =>
      rw [hb] at hfil
      simp at hfil
  rcases (allNullRow_false_iff _ _).mp hall1 with ⟨j, hjt, hy1⟩
  have hlen1 : r1.2.length = t.ncols := hR r1 hr1t
  -- trace the cell at column j through the remaining steps
  have hy2 : r2.2.getD j Cell.null = trimCell (r1.2.getD j Cell.null) := by
    rw [← hr2eq]
    exact getD_map_trimCell r1.2 j
  have hy2n : isNullCell (r2.2.getD j Cell.null) = false := by
    rw [hy2, isNullCell_trimCell]
    exact hy1
  have hy3 : q.2.getD j Cell.null =
      (if colUpgraded (trimT (dropnaT t)) j then
        coerceResultCell (r2.2.getD j Cell.null) else r2.2.getD j Cell.null) := by
    rw [← hq]
    show (mapIdxFrom _ 0 r2.2).getD j Cell.null = _
    rw [mapIdxFrom_getD]
    · rw [Nat.zero_add]
    · rw [Nat.zero_add]
      by_cases hu : colUpgraded (trimT (dropnaT t)) j <;> simp [hu, coerceResultCell, parseCell]
  have hlenq : q.2.length = t.ncols := by
    rw [← hq]
    show (mapIdxFrom _ 0 r2.2).length = t.ncols
    rw [mapIdxFrom_length, ← hr2eq, List.length_map]
    exact hlen1
  have hy4 : (mapIdxFrom (fun i c => if isNullCell c then
      fillValue (dedupT (cleanPre t)) i else c) 0 q.2).getD j Cell.null =
      (if isNullCell (q.2.getD j Cell.null) then
        fillValue (dedupT (cleanPre t)) j else q.2.getD j Cell.null) := by
    rw [mapIdxFrom_getD_of_lt _ 0 j q.2 Cell.null (by omega), Nat.zero_add]
  rw [allNullRow_false_iff]
  refine ⟨j, ?_, ?_⟩
  · rw [clean_data_ncols]
    exact hjt
  · rw [hy4]
    by_cases hn3 : isNullCell (q.2.getD j Cell.null)
    · rw [if_pos hn3]
      -- the cell was nullified by coercion, hence the column was upgraded
      have hu : colUpgraded (trimT (dropnaT t)) j = true := by
        by_contra hc
        rw [hy3, if_neg hc] at hn3
        rw [hy2n] at hn3
        cases hn3
      have hd4 : (dedupT (cleanPre t)).dtypeAt j = DType.numeric := by
        show (cleanPre t).dtypeAt j = DType.numeric
        unfold cleanPre
        rw [dtypeAt_coerceT (trimT (dropnaT t)) j hjt, if_pos hu]
      rcases colUpgraded_parse_exists _ j hu with ⟨c, hcm, hcs⟩
      rcases Option.isSome_iff_exists.mp hcs with ⟨q0, hq0⟩
      have hnum3 : Cell.num q0 ∈ (cleanPre t).colCells j := by
        unfold cleanPre
        rw [colCells_coerceT]
        refine List.mem_map.mpr ⟨c, hcm, ?_⟩
        rw [if_pos hu]
        unfold coerceResultCell
        rw [hq0]
      have hnum4 : Cell.num q0 ∈ (dedupT (cleanPre t)).colCells j :=
        colCells_dedupT_sup _ j _ hnum3
      have hnonnil : numsOf ((dedupT (cleanPre t)).colCells j) ≠ [] :=
        List.ne_nil_of_mem (numsOf_mem _ q0 hnum4)
      have hfill : fillValue (dedupT (cleanPre t)) j ≠ Cell.null := by
        intro hc
        exact hnonnil ((fillValue_num_null_iff _ j hd4).mp hc)
      exact (isNullCell_eq_false_iff _).mpr hfill
    · rw [if_neg hn3]
      cases hb : isNullCell (q.2.getD j Cell.null) with
      | false => rfl
      | true => exact absurd hb hn3

/-- A null surviving cleaning sits in a column whose fill value is null,
and that stays true when the fill is recomputed on the cleaned table. -/
theorem clean_null_fill_null (t : Table) (hR : t.Rect) :
    ∀ j, j < (clean_data t).ncols → Cell.null ∈ (clean_data t).colCells j →
      fillValue (clean_data t) j = Cell.null := by
  intro j hj hnull
  have hRd : (dedupT (cleanPre t)).Rect := dedupT_rect _ (cleanPre_rect _ hR)
  have hjd : j < (dedupT (cleanPre t)).ncols := by
    have h2 := cleanPre_ncols t
    have h3 := clean_data_ncols t
    show j < (cleanPre t).ncols
    omega
  have hcol : (clean_data t).colCells j = ((dedupT (cleanPre t)).colCells j).map
      (fun c => if isNullCell c then fillValue (dedupT (cleanPre t)) j else c) :=
    colCells_imputeT _ j hRd hjd
  have hfill4 : fillValue (dedupT (cleanPre t)) j = Cell.null := by
    rw [hcol] at hnull
    rcases List.mem_map.mp hnull with ⟨c0, _, hc0eq⟩
    by_cases h0 : isNullCell c0
    · rw [if_pos h0] at hc0eq
      exact hc0eq
    · rw [if_neg h0] at hc0eq
      rw [hc0eq] at h0
      exact absurd rfl h0
  have hd4 : (dedupT (cleanPre t)).dtypeAt j = DType.numeric := by
    by_contra hc
    exact fillValue_object_ne_null _ j hc hfill4
  have hnil4 : numsOf ((dedupT (cleanPre t)).colCells j) = [] :=
    (fillValue_num_null_iff _ j hd4).mp hfill4
  have hsame : (clean_data t).colCells j = (dedupT (cleanPre t)).colCells j := by
    rw [hcol]
    have hpt : ∀ c ∈ (dedupT (cleanPre t)).colCells j,
        (if isNullCell c then fillValue (dedupT (cleanPre t)) j else c) = c := by
      intro c _
      by_cases h0 : isNullCell c
      · rw [if_pos h0, hfill4]
        cases c with
        | null => rfl
        | num q => cases h0
        | str s => cases h0
      · rw [if_neg h0]
    calc ((dedupT (cleanPre t)).colCells j).map _
        = ((dedupT (cleanPre t)).colCells j).map id := List.map_congr_left hpt
      _ = (dedupT (cleanPre t)).colCells j := List.map_id _
  have hdc : (clean_data t).dtypeAt j = DType.numeric := hd4
  unfold fillValue
  rw [if_pos hdc, hsame, hnil4]
  rfl

/-- Claim C8 counterexample: imputation equates the two rows of
`tImputeDup` (the null is filled with the median 5), so the first run
keeps 2 rows, and a second run of the Cleaner on its own output removes
one more row and shrinks the shape. -/
theorem C8_counterexample_impute_creates_duplicates :
    (clean_data tImputeDup).nrows = 2 ∧
    (clean_data (clean_data tImputeDup)).nrows = 1 ∧
    (cleaning_report (clean_data tImputeDup)).rows_removed = 1 := by
  refine ⟨by decide, by decide, by decide⟩

/-- Claim C8 (amended): running the Cleaner a second time on its own
output removes zero rows and leaves the table (hence its shape) unchanged,
provided the first run's imputation did not manufacture duplicate rows;
imputation can create duplicates (filling nulls with the median or mode
may equate previously distinct rows), and then a second run removes them. -/
theorem C8_amended_idempotence (t : Table) (hR : t.Rect)
    (hnd : ((clean_data t).rows.map Prod.snd).Nodup) :
    clean_data (clean_data t) = clean_data t ∧
    (cleaning_report (clean_data t)).rows_removed = 0 ∧
    (cleaning_report (clean_data t)).cleaned_shape
      = ⟨(clean_data t).nrows, (clean_data t).ncols⟩ ∧
    (cleaning_report (clean_data t)).original_shape
      = ⟨(clean_data t).nrows, (clean_data t).ncols⟩ := by
  have h1 : dropnaT (clean_data t) = (clean_data t) := by
    apply dropnaT_eq_self
    intro p hp
    exact clean_no_allNull_rows t hR p hp
  have h2 : trimT (clean_data t) = (clean_data t) := by
    apply trimT_eq_self
    exact clean_cells_trimFixed t
  have h3 : coerceT (clean_data t) = (clean_data t) := by
    apply coerceT_eq_self
    exact clean_colUpgraded_false t hR
  have hpre : cleanPre (clean_data t) = (clean_data t) := by
    unfold cleanPre
    rw [h1, h2, h3]
  have h4 : dedupT (clean_data t) = (clean_data t) := dedupT_eq_self _ hnd
  have h5 : imputeT (clean_data t) = (clean_data t) := by
    apply imputeT_eq_self _ (clean_data_rect t hR)
    exact clean_null_fill_null t hR
  have hcc : clean_data (clean_data t) = clean_data t := by
    show imputeT (dedupT (cleanPre (clean_data t))) = clean_data t
    rw [hpre, h4, h5]
  refine ⟨hcc, ?_, ?_, ?_⟩
  · show (cleanPre (clean_data t)).nrows - (clean_data (clean_data t)).nrows = 0
    rw [hpre, hcc]
    exact Nat.sub_self _
  · show (⟨(clean_data (clean_data t)).nrows, (clean_data (clean_data t)).ncols⟩ : Shape)
      = ⟨(clean_data t).nrows, (clean_data t).ncols⟩
    rw [hcc]
  · show (⟨(cleanPre (clean_data t)).nrows, (cleanPre (clean_data t)).ncols⟩ : Shape)
      = ⟨(clean_data t).nrows, (clean_data t).ncols⟩
    rw [hpre]

/-- Claim C8 witness: the amended idempotence at the scenario table, whose
cleaned output has pairwise distinct rows. -/
theorem C8_amended_witness :
    clean_data (clean_data tScenario) = clean_data tScenario ∧
    (cleaning_report (clean_data tScenario)).rows_removed = 0 :=
  ⟨(C8_amended_idempotence tScenario (by decide) (by decide)).1,
   (C8_amended_idempotence tScenario (by decide) (by decide)).2.1⟩
